import Mathlib

/-!
# Postasy front-end: analytics recorder and gallery filter

A shallow embedding of `static/js/analytics.js` (class `PostasyAnalytics`) and of
`static/js/main.js` (`Utils.debounce`, `performSearch`), followed by the properties
proved about them.

Conventions of the embedding

* A JavaScript object is an association list with one entry per key (`Obj`); a property
  write replaces the value of an existing key or adds the key at the end.
* Exceptions are values of `Except JsError`; a method that changes `this` before it throws
  returns the changed state together with its completion.
* Host facilities that the scripts only call (`Date.now`, `window.location.href`,
  `navigator.sendBeacon`, `fetch`, `String.prototype.localeCompare`) are inputs of the model.
* `Array.prototype.sort` is an input as well (`performSearchWith`). `performSearch` is the
  function on the reference stable sort `arraySort`, with which every engine that keeps the
  guarantee of the language agrees when the comparator is consistent
  (`performSearchWith_eq_performSearch`); `v8Sort` is the sort of V8 on a short array.
-/

namespace Postasy

/-! ## JavaScript values and objects -/

/-- The JavaScript values a payload can hold. `bigint` is kept apart from `num` because
`JSON.stringify` throws a `TypeError` on it. -/
inductive Value where
  | undefined
  | null
  | bool (b : Bool)
  | num (n : Int)
  | str (s : String)
  | bigint (n : Int)
  | obj (fields : List (String × Value))

/-- An object: its own enumerable string-keyed properties. -/
abbrev Obj := List (String × Value)

/-- Errors thrown by the host. -/
inductive JsError where
  | typeError (message : String)
  | referenceError (message : String)
  deriving DecidableEq, Repr

/-- Property read `o[k]`, `none` when `o` has no own property `k`. -/
def Obj.get : Obj → String → Option Value
  | [], _ => none
  | (k', v) :: rest, k => if k' = k then some v else Obj.get rest k

/-- Property write `o[k] = v`. -/
def Obj.set : Obj → String → Value → Obj
  | [], k, v => [(k, v)]
  | (k', v') :: rest, k, v => if k' = k then (k', v) :: rest else (k', v') :: Obj.set rest k v

/-- The keys of an object. -/
def Obj.keys (o : Obj) : List String := o.map Prod.fst

/-- Spread `{...target, ...source}`: every property of `source` is written onto `target`,
in order. -/
def Obj.spread (target source : Obj) : Obj :=
  source.foldl (fun acc kv => Obj.set acc kv.1 kv.2) target

mutual
/-- Whether `JSON.stringify` completes on a value: it throws on a BigInt, also a nested one. -/
def Value.serialisable : Value → Bool
  | .bigint _ => false
  | .obj fields => fieldsSerialisable fields
  | _ => true
/-- Whether `JSON.stringify` completes on every property value of an object. -/
def fieldsSerialisable : List (String × Value) → Bool
  | [] => true
  | (_, v) :: rest => v.serialisable && fieldsSerialisable rest
end

/-- `JSON.stringify(o)`. The text is represented by the object it encodes; what the model
keeps of the built-in is that it throws a `TypeError` on a BigInt. -/
def jsonStringify (o : Obj) : Except JsError Obj :=
  if fieldsSerialisable o then .ok o
  else .error (.typeError "Do not know how to serialize a BigInt")

/-! ## analytics.js -/

/-- What a call `navigator.sendBeacon(url, data)` does: it returns a boolean (`false`: the
user agent could not queue the data) or it throws (a `TypeError` when the URL does not parse
or is not an http(s) URL). -/
inductive BeaconCall where
  | returns (queued : Bool)
  | throws (error : JsError)
  deriving DecidableEq, Repr

/-- What becomes of the promise returned by `fetch(url, init)`. -/
inductive FetchCall where
  | resolves
  | rejects
  deriving DecidableEq, Repr

/-- What `track` and `sendEvent` read from the browser at one call. -/
structure Host where
  /-- The value of `Date.now()`. -/
  now : Int
  /-- The value of `window.location.href`. -/
  href : String
  /-- `none` when `navigator.sendBeacon` is missing; otherwise what a call of it does. -/
  sendBeacon : Option BeaconCall
  /-- `none` when the global `fetch` is not defined; otherwise what becomes of the promise it
  returns. -/
  fetch : Option FetchCall

/-- What `sendEvent` handed to the transport, and what became of it: whether the user agent
queued the beacon, or whether the `fetch` promise rejected (the rejection is swallowed). -/
inductive Delivery where
  | beacon (url : String) (body : Obj) (queued : Bool)
  | fetch (url : String) (body : Obj) (rejected : Bool)

/-- The instance state of `PostasyAnalytics`. -/
structure PostasyAnalytics where
  sessionStart : Int
  events : List Obj

/-- The constructor: `sessionStart = Date.now()`, `events = []`. -/
def PostasyAnalytics.new (now : Int) : PostasyAnalytics :=
  { sessionStart := now, events := [] }

/-- The object literal `{ event, timestamp: Date.now(), url: window.location.href, ...data }`. -/
def eventData (h : Host) (event : String) (data : Obj) : Obj :=
  Obj.spread
    (Obj.set (Obj.set (Obj.set [] "event" (.str event)) "timestamp" (.num h.now))
      "url" (.str h.href))
    data

/-- The method `sendEvent(eventData)`. Nothing in it is inside a `try`: in the beacon branch
the argument `JSON.stringify(eventData)` is evaluated, then the call is made, and either may
throw; the boolean the call returns is discarded. In the other branch the reference to `fetch`
is resolved first (a `ReferenceError` when it is not defined), then the argument
`JSON.stringify(eventData)` is evaluated and may throw; only a rejection of the promise is
swallowed, by `.catch(() => {})`. -/
def PostasyAnalytics.sendEvent (h : Host) (eventData : Obj) : Except JsError Delivery :=
  match h.sendBeacon with
  | some call =>
    match jsonStringify eventData with
    | .error e => .error e
    | .ok body =>
      match call with
      | .returns queued => .ok (.beacon "/api/analytics" body queued)
      | .throws e => .error e
  | none =>
    match h.fetch with
    | none => .error (.referenceError "fetch is not defined")
    | some outcome =>
      match jsonStringify eventData with
      | .error e => .error e
      | .ok body => .ok (.fetch "/api/analytics" body (decide (outcome = .rejects)))

/-- Whether the transport throws into `sendEvent` when it is reached. -/
def Host.transportThrows (h : Host) : Bool :=
  match h.sendBeacon with
  | some (.throws _) => true
  | some (.returns _) => false
  | none => h.fetch.isNone

/-- The method `track(event, data = {})`: `data` is `none` when the argument is omitted.
The result is the instance after the call and the completion of the call. -/
def PostasyAnalytics.track (h : Host) (self : PostasyAnalytics) (event : String)
    (data : Option Obj) : PostasyAnalytics × Except JsError Delivery :=
  let eventData := eventData h event (data.getD [])
  let self' := { self with events := self.events ++ [eventData] }
  (self', PostasyAnalytics.sendEvent h eventData)

/-- One call of `track` together with what the browser answers during it. -/
structure TrackCall where
  host : Host
  event : String
  data : Option Obj

/-- A sequence of `track` calls, each from its own event handler: a call that throws does not
prevent the later ones. -/
def PostasyAnalytics.trackAll (self : PostasyAnalytics) (calls : List TrackCall) :
    PostasyAnalytics :=
  calls.foldl (fun s c => (PostasyAnalytics.track c.host s c.event c.data).1) self

/-- The `timestamp` property of a record, when it is a number. -/
def timestampOf (record : Obj) : Option Int :=
  match Obj.get record "timestamp" with
  | some (.num n) => some n
  | _ => none

/-- Two records in log order have non-decreasing numeric timestamps. -/
def timestampLE (a b : Obj) : Prop :=
  match timestampOf a, timestampOf b with
  | some x, some y => x ≤ y
  | _, _ => False

/-! ## main.js: `Utils.debounce` -/

/-- A pending timer created by `setTimeout(later, wait)`: its id, the time at which it is due
and the arguments captured by the closure `later`. -/
structure Timer (α : Type) where
  id : Nat
  due : Nat
  args : α

/-- The state around one debounced function: the host's timer table (restricted to the timers
this closure created), the closure variable `timeout`, and the calls of `func` made so far,
each with the time at which its timer was due. -/
structure Debounced (α : Type) where
  nextId : Nat
  timers : List (Timer α)
  timeout : Option Nat
  executed : List (Nat × α)

/-- The state right after `Utils.debounce(func, wait)` returned: `let timeout;`. -/
def Debounced.init (α : Type) (firstId : Nat) : Debounced α :=
  { nextId := firstId, timers := [], timeout := none, executed := [] }

/-- The host call `clearTimeout(id)`: no effect when `id` is undefined or not pending. -/
def clearTimeout {α : Type} (id : Option Nat) (timers : List (Timer α)) : List (Timer α) :=
  timers.filter (fun t => decide (some t.id ≠ id))

/-- The returned function, `executedFunction(...args)`, called at time `now`:
`clearTimeout(timeout); timeout = setTimeout(later, wait)`. -/
def executedFunction {α : Type} (wait now : Nat) (args : α) (s : Debounced α) : Debounced α :=
  let timers := clearTimeout s.timeout s.timers
  { nextId := s.nextId + 1
    timers := timers ++ [{ id := s.nextId, due := now + wait, args := args }]
    timeout := some s.nextId
    executed := s.executed }

/-- The timer callback `later` of timer `t`: the host removes the fired timer, then
`clearTimeout(timeout); func(...args)`. -/
def later {α : Type} (t : Timer α) (s : Debounced α) : Debounced α :=
  let timers := s.timers.filter (fun u => decide (u.id ≠ t.id))
  { s with
    timers := clearTimeout s.timeout timers
    executed := s.executed ++ [(t.due, t.args)] }

/-- The event loop runs the callbacks of the timers in `snapshot` that are due at `now` and
still pending. -/
def runDue {α : Type} (now : Nat) : List (Timer α) → Debounced α → Debounced α
  | [], s => s
  | t :: rest, s =>
    if t.due ≤ now ∧ s.timers.any (fun u => decide (u.id = t.id)) then
      runDue now rest (later t s)
    else runDue now rest s

/-- Time passes until `now`: every timer due by then fires, in creation order. -/
def advanceTo {α : Type} (now : Nat) (s : Debounced α) : Debounced α :=
  runDue now s.timers s

/-- A sequence of calls of the debounced function, each with its arrival time. -/
def runCalls {α : Type} (wait : Nat) (s : Debounced α) (calls : List (Nat × α)) :
    Debounced α :=
  calls.foldl (fun st c => executedFunction wait c.1 c.2 (advanceTo c.1 st)) s

/-- Each call arrives no earlier than the previous one and before the timer started by the
previous one is due. -/
def withinWindow {α : Type} (wait : Nat) : List (Nat × α) → Bool
  | [] => true
  | [_] => true
  | c :: d :: rest =>
    decide (c.1 ≤ d.1) && decide (d.1 < c.1 + wait) && withinWindow wait (d :: rest)

/-! ## main.js: `performSearch` -/

/-- The lower-case mapping of one character, on the letters of Basic Latin (`A`-`Z`) and of
Latin-1 (`À`-`Þ`, without `×`); other characters are left as they are. -/
def lowerChar (c : Char) : Char :=
  if 0xC0 ≤ c.toNat ∧ c.toNat ≤ 0xDE ∧ c.toNat ≠ 0xD7 then Char.ofNat (c.toNat + 0x20)
  else c.toLower

/-- `String.prototype.toLowerCase`, character by character with `lowerChar`: it is the
built-in on text in Basic Latin and Latin-1. -/
def toLowerCase (s : String) : String := ⟨s.data.map lowerChar⟩

/-- `s.includes(t)`: `t` occurs in `s` as a contiguous substring. -/
def includes (s t : String) : Bool := decide (t.data <:+: s.data)

/-- `v || d` for a string read from the page: `d` replaces a missing value and the empty
string. -/
def orDefault (v : Option String) (d : String) : String :=
  match v with
  | some s => if s = "" then d else s
  | none => d

/-- A `.poster-item` element. `date` is the time value of `new Date(item.dataset.date || 0)`,
in milliseconds; it is `none` for an Invalid Date (a `data-date` that does not parse), whose
time value is NaN. -/
structure PosterItem where
  /-- The identity of the DOM node. -/
  node : Nat
  /-- The attribute `data-title`. -/
  dataTitle : Option String
  /-- The attribute `data-public`. -/
  dataPublic : Option String
  date : Option Int
  /-- The value of `style.display`. -/
  display : String
  deriving DecidableEq, Repr

/-- The part of the document that `performSearch` reads and writes. -/
structure Page where
  /-- The value of `#searchInput`, `none` when the element is missing. -/
  searchInput : Option String
  /-- The value of `#filterSelect`, `none` when the element is missing. -/
  filterSelect : Option String
  /-- The value of `#sortSelect`, `none` when the element is missing. -/
  sortSelect : Option String
  /-- The `.poster-item` elements in document order; when `#posterGrid` exists they are its
  children. -/
  items : List PosterItem
  /-- Whether `#posterGrid` exists. -/
  posterGrid : Bool
  /-- The value of `style.display` of `#emptyState`, `none` when the element is missing. -/
  emptyState : Option String
  deriving DecidableEq, Repr

/-- An entry of the array `visibleItems`. -/
structure VisibleItem where
  element : PosterItem
  date : Option Int
  title : String
  deriving DecidableEq, Repr

/-- The constant `searchTerm`. -/
def Page.searchTerm (p : Page) : String := orDefault (p.searchInput.map toLowerCase) ""

/-- The constant `filterValue`. -/
def Page.filterValue (p : Page) : String := orDefault p.filterSelect "all"

/-- The constant `sortValue`. -/
def Page.sortValue (p : Page) : String := orDefault p.sortSelect "newest"

/-- The constant `title` of the loop body. -/
def PosterItem.title (item : PosterItem) : String := orDefault item.dataTitle ""

/-- The constant `isPublic` of the loop body. -/
def PosterItem.isPublic (item : PosterItem) : Bool := decide (item.dataPublic = some "true")

/-- The variable `matchesFilter` at the end of the loop body. -/
def matchesFilter (filterValue : String) (item : PosterItem) : Bool :=
  let m0 := true
  let m1 := if filterValue = "public" then item.isPublic else m0
  if filterValue = "private" then !item.isPublic else m1

/-- The condition `matchesSearch && matchesFilter` of the loop body. -/
def itemMatches (searchTerm filterValue : String) (item : PosterItem) : Bool :=
  includes item.title searchTerm && matchesFilter filterValue item

/-- The element after the loop body ran on it. -/
def showOrHide (searchTerm filterValue : String) (item : PosterItem) : PosterItem :=
  if itemMatches searchTerm filterValue item then { item with display := "block" }
  else { item with display := "none" }

/-- The array `visibleItems` after the `forEach` loop, before it is sorted. An entry holds a
reference to the element, so its `element` shows the `display` written right after the
`push`. -/
def collectVisible (searchTerm filterValue : String) (items : List PosterItem) :
    List VisibleItem :=
  (items.filter (itemMatches searchTerm filterValue)).map fun item =>
    { element := showOrHide searchTerm filterValue item, date := item.date, title := item.title }

/-- The difference `x - y` of two dates: the difference of their time values, NaN (`none`) when
one of them is an Invalid Date. -/
def dateDiff (x y : Option Int) : Option Int :=
  match x, y with
  | some a, some b => some (a - b)
  | _, _ => none

/-- The comparator passed to `visibleItems.sort`; `localeCompare` is the host's collation.
The result is `none` when the function returns NaN. -/
def compareItems (localeCompare : String → String → Int) (sortValue : String)
    (a b : VisibleItem) : Option Int :=
  if sortValue = "oldest" then dateDiff a.date b.date
  else if sortValue = "title" then some (localeCompare a.title b.title)
  else dateDiff b.date a.date

/-- The abstract operation `SortCompare` of `Array.prototype.sort` on two objects: the number
returned by the comparator, with NaN replaced by `+0`. -/
def sortCompare {α : Type} (comparefn : α → α → Option Int) (x y : α) : Int :=
  (comparefn x y).getD 0

/-- Insertion of `a` before the first element it does not have to follow. -/
def insertSorted {α : Type} (cmp : α → α → Int) (a : α) : List α → List α
  | [] => [a]
  | b :: rest => if cmp a b ≤ 0 then a :: b :: rest else b :: insertSorted cmp a rest

/-- The reference for `Array.prototype.sort`: a stable sort (ECMAScript 2019), computed by
insertion. When the comparator is consistent on the elements of the array the language leaves
an engine no other result. -/
def arraySort {α : Type} (cmp : α → α → Int) : List α → List α
  | [] => []
  | a :: rest => insertSorted cmp a (arraySort cmp rest)

/-- V8, `CountAndMakeRun`: how many of the elements that follow `prev` continue the run, which
is strictly descending or else non-descending. -/
def v8RunLength {α : Type} (cmp : α → α → Int) (descending : Bool) (prev : α) : List α → Nat
  | [] => 0
  | x :: rest =>
    if (if descending then decide (cmp x prev < 0) else decide (0 ≤ cmp x prev)) then
      v8RunLength cmp descending x rest + 1
    else 0

/-- V8, `CountAndMakeRun`: the run at the start of the array, reversed in place when it is
descending, and the elements after it. -/
def v8CountAndMakeRun {α : Type} (cmp : α → α → Int) : List α → List α × List α
  | [] => ([], [])
  | [a] => ([a], [])
  | a0 :: a1 :: rest =>
    let descending := decide (cmp a1 a0 < 0)
    let n := v8RunLength cmp descending a1 rest
    let run := a0 :: a1 :: rest.take n
    (if descending then run.reverse else run, rest.drop n)

/-- V8, `BinaryInsertionSort`: the binary search for the place of `pivot` in the sorted part,
between `left` and `right`. -/
def v8BinarySearch {α : Type} (cmp : α → α → Int) (pivot : α) (sorted : List α) :
    Nat → Nat → Nat → Nat
  | 0, left, _ => left
  | fuel + 1, left, right =>
    if left < right then
      let mid := left + (right - left) / 2
      match sorted[mid]? with
      | some x =>
        if cmp pivot x < 0 then v8BinarySearch cmp pivot sorted fuel left mid
        else v8BinarySearch cmp pivot sorted fuel (mid + 1) right
      | none => left
    else left

/-- V8, `BinaryInsertionSort`: one step, `pivot` is put at its place in the sorted part. -/
def v8BinaryInsert {α : Type} (cmp : α → α → Int) (sorted : List α) (pivot : α) : List α :=
  let left := v8BinarySearch cmp pivot sorted sorted.length 0 sorted.length
  sorted.take left ++ pivot :: sorted.drop left

/-- `Array.prototype.sort` of V8 (Chrome, Node.js) as it runs on an array of fewer than 64
elements: the whole array is one run of its TimSort, `CountAndMakeRun` followed by
`BinaryInsertionSort`. -/
def v8Sort {α : Type} (cmp : α → α → Int) (l : List α) : List α :=
  (v8CountAndMakeRun cmp l).2.foldl (v8BinaryInsert cmp) (v8CountAndMakeRun cmp l).1

/-- `container.appendChild(el)`: the node is moved to the end of the children. -/
def appendChild (children : List PosterItem) (el : PosterItem) : List PosterItem :=
  children.filter (fun c => decide (c.node ≠ el.node)) ++ [el]

/-- The array `visibleItems` after `visibleItems.sort(...)`, on an engine whose
`Array.prototype.sort` is `sort`. -/
def visibleItemsWith (sort : (VisibleItem → VisibleItem → Int) → List VisibleItem →
    List VisibleItem) (localeCompare : String → String → Int) (p : Page) : List VisibleItem :=
  sort (sortCompare (compareItems localeCompare p.sortValue))
    (collectVisible p.searchTerm p.filterValue p.items)

/-- The function `performSearch`, as a function from the page before to the page after, on
an engine whose `Array.prototype.sort` is `sort`. -/
def performSearchWith (sort : (VisibleItem → VisibleItem → Int) → List VisibleItem →
    List VisibleItem) (localeCompare : String → String → Int) (p : Page) : Page :=
  let items := p.items.map (showOrHide p.searchTerm p.filterValue)
  let visibleItems := visibleItemsWith sort localeCompare p
  { p with
    items :=
      if p.posterGrid then visibleItems.foldl (fun cs v => appendChild cs v.element) items
      else items
    emptyState :=
      p.emptyState.map fun _ => if visibleItems.length = 0 then "block" else "none" }

/-- The array `visibleItems` after the sort, with the reference sort. -/
def visibleItems (localeCompare : String → String → Int) (p : Page) : List VisibleItem :=
  visibleItemsWith arraySort localeCompare p

/-- The function `performSearch` with the reference sort, which is the sort of every engine
that keeps the guarantee of the language when the dates of the matched items are valid. -/
def performSearch (localeCompare : String → String → Int) (p : Page) : Page :=
  performSearchWith arraySort localeCompare p

/-- The elements shown on a page, in document order. -/
def Page.shown (p : Page) : List PosterItem :=
  p.items.filter (fun i => decide (i.display = "block"))

/-- The elements hidden on a page, in document order. -/
def Page.hidden (p : Page) : List PosterItem :=
  p.items.filter (fun i => decide (i.display = "none"))

/-- A consistent comparator in the sense of `Array.prototype.sort`: the signs of `cmp a b` and
`cmp b a` are opposite and "not after" is transitive. -/
def ConsistentComparator {α : Type} (cmp : α → α → Int) : Prop :=
  (∀ a b, 0 < cmp a b ↔ cmp b a < 0) ∧ (∀ a b c, cmp a b ≤ 0 → cmp b c ≤ 0 → cmp a c ≤ 0)

/-- A comparator that is consistent for the elements of one array, which is what the language
asks of it. -/
def ConsistentOn {α : Type} (cmp : α → α → Int) (l : List α) : Prop :=
  (∀ a ∈ l, ∀ b ∈ l, 0 < cmp a b ↔ cmp b a < 0)
  ∧ (∀ a ∈ l, ∀ b ∈ l, ∀ c ∈ l, cmp a b ≤ 0 → cmp b c ≤ 0 → cmp a c ≤ 0)

/-- What ECMAScript 2019 guarantees of `Array.prototype.sort` when the comparator is consistent
on the array: the result is a permutation of the array, it is in the order of the comparator,
and the elements that compare equal to a given one keep their relative order. -/
def SortsStably {α : Type} (sort : (α → α → Int) → List α → List α) : Prop :=
  ∀ (cmp : α → α → Int) (l : List α), ConsistentOn cmp l →
    (sort cmp l).Perm l
    ∧ (sort cmp l).Pairwise (fun x y => cmp x y ≤ 0)
    ∧ ∀ a ∈ l, (sort cmp l).filter (fun x => decide (cmp a x = 0))
        = l.filter (fun x => decide (cmp a x = 0))

/-- Every entry of the array has a valid date. -/
def validDates (vs : List VisibleItem) : Bool := vs.all fun v => v.date.isSome

/-- The date `x` is not after the date `y`, both being valid. -/
def dateLE (x y : Option Int) : Prop :=
  match x, y with
  | some a, some b => a ≤ b
  | _, _ => False

/-- A collation used as an example of `localeCompare`: code point order. -/
def codePointCompare (a b : String) : Int :=
  if a.data < b.data then -1 else if b.data < a.data then 1 else 0

/-- Case-insensitive containment, as the specification words it: `title` contains `term` when
case is ignored on both sides. -/
def containsIgnoreCase (title term : String) : Bool :=
  includes (toLowerCase title) (toLowerCase term)

/-- Whether a call completed without an exception. -/
def returnsNormally {ε α : Type} (c : Except ε α) : Bool :=
  match c with
  | .ok _ => true
  | .error _ => false

/-- A browser with `navigator.sendBeacon`, used in the examples. -/
def sampleHost : Host :=
  { now := 5, href := "https://postasy.test/", sendBeacon := some (.returns true),
    fetch := some .resolves }

/-! ## Sample inputs and auxiliary predicates -/

/-- The page of the examples: one public poster titled "Sale" and one private poster titled
"Draft", with the three controls present. -/
def samplePage (search filter sort : String) : Page :=
  { searchInput := some search, filterSelect := some filter, sortSelect := some sort,
    items := [ { node := 1, dataTitle := some "Sale", dataPublic := some "true",
                 date := some 2, display := "" },
               { node := 2, dataTitle := some "Draft", dataPublic := some "false",
                 date := some 1, display := "" } ],
    posterGrid := true, emptyState := some "none" }

/-- The page of the sorting example: the items `{title: "B", date: 2}` and
`{title: "A", date: 1}`, in that order, no search term and no filter. -/
def sortExamplePage (sort : String) : Page :=
  { searchInput := none, filterSelect := none, sortSelect := some sort,
    items := [ { node := 1, dataTitle := some "B", dataPublic := some "true",
                 date := some 2, display := "" },
               { node := 2, dataTitle := some "A", dataPublic := some "true",
                 date := some 1, display := "" } ],
    posterGrid := true, emptyState := none }

/-- A page with ties: two posters dated 3 and two posters titled "Sale". -/
def tiePage (sort : String) : Page :=
  { searchInput := none, filterSelect := none, sortSelect := some sort,
    items := [ { node := 1, dataTitle := some "Sale", dataPublic := some "true",
                 date := some 3, display := "" },
               { node := 2, dataTitle := some "Draft", dataPublic := some "false",
                 date := some 3, display := "" },
               { node := 3, dataTitle := some "Sale", dataPublic := some "true",
                 date := some 1, display := "" } ],
    posterGrid := true, emptyState := none }

/-- A poster of `invalidDatePage`. -/
def poster (node : Nat) (date : Option Int) : PosterItem :=
  { node := node, dataTitle := some "poster", dataPublic := some "true", date := date,
    display := "" }

/-- A page on which three posters have a `data-date` that does not parse (nodes 1, 2 and 4)
and the posters of nodes 5 and 7 share the date 2; no search term, no filter, sort `newest`. -/
def invalidDatePage : Page :=
  { searchInput := none, filterSelect := none, sortSelect := some "newest",
    items := [ poster 1 none, poster 2 none, poster 3 (some 1), poster 4 none,
               poster 5 (some 2), poster 6 (some 3), poster 7 (some 2) ],
    posterGrid := true, emptyState := none }

/-- At most one timer is pending, it is the one `timeout` names, and it is not due before
`now`. -/
def quietAt {α : Type} (now : Nat) (s : Debounced α) : Prop :=
  s.timers = [] ∨ ∃ t, s.timers = [t] ∧ s.timeout = some t.id ∧ now < t.due

/-! ## main.js: `addCharacterCounter` -/

/-- A JavaScript number: here the value to which the attribute string `maxlength` is converted
where it is used in arithmetic and comparisons. Finite numbers are kept as rationals. -/
inductive JsNumber where
  | nan
  | negInf
  | posInf
  | fin (q : ℚ)

/-- The product `maxLength * 0.9`. `scale` is the host's double-precision product of a finite
number with `0.9`; an infinity or NaN is left as it is. -/
def timesPointNine (scale : ℚ → ℚ) : JsNumber → JsNumber
  | .fin q => .fin (scale q)
  | .nan => .nan
  | .negInf => .negInf
  | .posInf => .posInf

/-- The product with `0.9` taken exactly. -/
def exactNineTenths (x : ℚ) : ℚ := x * 0.9

/-- What the branch analysis uses of the product with `0.9`: it does not exceed a non-negative
argument and it is negative on a negative one. -/
def ScalesDown (scale : ℚ → ℚ) : Prop :=
  (∀ q, 0 ≤ q → scale q ≤ q) ∧ (∀ q, q < 0 → scale q < 0)

/-- The comparison `currentLength > x`, false when `x` is NaN. -/
def lengthGt (currentLength : Nat) : JsNumber → Bool
  | .nan => false
  | .negInf => true
  | .posInf => false
  | .fin q => decide (q < (currentLength : ℚ))

/-- The element `counter`: its class list and the number shown in its `.current` span. -/
structure CharacterCounter where
  classList : List String
  current : Nat
  deriving DecidableEq, Repr

/-- The method `classList.add(token)`. -/
def classListAdd (classes : List String) (token : String) : List String :=
  if token ∈ classes then classes else classes ++ [token]

/-- The method `classList.remove(...tokens)`. -/
def classListRemove (classes tokens : List String) : List String :=
  classes.filter (fun c => decide (c ∉ tokens))

/-- The inner function `updateCounter`, run when the text has `currentLength` characters. -/
def updateCounter (scale : ℚ → ℚ) (maxLength : JsNumber) (currentLength : Nat)
    (counter : CharacterCounter) : CharacterCounter :=
  if lengthGt currentLength (timesPointNine scale maxLength) then
    { classList := classListRemove (classListAdd counter.classList "text-warning")
        ["text-muted"],
      current := currentLength }
  else if lengthGt currentLength maxLength then
    { classList := classListRemove (classListAdd counter.classList "text-danger")
        ["text-warning", "text-muted"],
      current := currentLength }
  else
    { classList := classListRemove (classListAdd counter.classList "text-muted")
        ["text-warning", "text-danger"],
      current := currentLength }

/-- The condition under which the `text-danger` branch of `updateCounter` runs. -/
def takesDangerBranch (scale : ℚ → ℚ) (maxLength : JsNumber) (currentLength : Nat) : Bool :=
  !lengthGt currentLength (timesPointNine scale maxLength) && lengthGt currentLength maxLength

/-- The element created by `addCharacterCounter`, before the first `updateCounter()`:
`className = 'character-counter text-muted small text-end mt-1'` and the span shows `0`. -/
def newCounter : CharacterCounter :=
  { classList := ["character-counter", "text-muted", "small", "text-end", "mt-1"],
    current := 0 }

/-- The calls of `updateCounter` (the initial one, then one per `input` or `paste` event), each
with the length of the text at that moment. -/
def updateAll (scale : ℚ → ℚ) (maxLength : JsNumber) (counter : CharacterCounter)
    (lengths : List Nat) : CharacterCounter :=
  lengths.foldl (fun c n => updateCounter scale maxLength n c) counter

/-! ## Properties of objects -/

theorem Obj.get_set (o : Obj) (k k' : String) (v : Value) :
    Obj.get (Obj.set o k v) k' = if k = k' then some v else Obj.get o k' := by
  induction o with
  | nil => simp [Obj.set, Obj.get]
  | cons e rest ih =>
    obtain ⟨k0, v0⟩ := e
    by_cases h0 : k0 = k
    · subst h0
      by_cases h1 : k0 = k' <;> simp [Obj.set, Obj.get, h1]
    · by_cases h1 : k0 = k'
      · subst h1
        have : ¬ k = k0 := fun h => h0 h.symm
        simp [Obj.set, Obj.get, h0, this]
      · simp [Obj.set, Obj.get, h0, h1, ih]

theorem Obj.get_spread_of_not_mem (data target : Obj) (k : String) (hk : k ∉ Obj.keys data) :
    Obj.get (Obj.spread target data) k = Obj.get target k := by
  induction data generalizing target with
  | nil => rfl
  | cons e rest ih =>
    have h1 : ¬ e.1 = k := fun h => hk (by simp [Obj.keys, ← h])
    have h2 : k ∉ Obj.keys rest := fun h => hk (by simp [Obj.keys] at h ⊢; exact Or.inr h)
    have := ih (Obj.set target e.1 e.2) h2
    simp only [Obj.spread, List.foldl_cons] at this ⊢
    rw [this, Obj.get_set, if_neg h1]

theorem Obj.get_spread_of_mem (data target : Obj) (k : String) (v : Value)
    (hnodup : (Obj.keys data).Nodup) (hmem : (k, v) ∈ data) :
    Obj.get (Obj.spread target data) k = some v := by
  induction data generalizing target with
  | nil => cases hmem
  | cons e rest ih =>
    have hn : e.1 ∉ Obj.keys rest ∧ (Obj.keys rest).Nodup := by
      simpa [Obj.keys] using hnodup
    rcases List.mem_cons.mp hmem with h | h
    · subst h
      have := Obj.get_spread_of_not_mem rest (Obj.set target k v) k hn.1
      simp only [Obj.spread, List.foldl_cons] at this ⊢
      rw [this, Obj.get_set, if_pos rfl]
    · have := ih (Obj.set target e.1 e.2) hn.2 h
      simpa [Obj.spread] using this

theorem fieldsSerialisable_set (o : Obj) (k : String) (v : Value)
    (ho : fieldsSerialisable o = true) (hv : v.serialisable = true) :
    fieldsSerialisable (Obj.set o k v) = true := by
  induction o with
  | nil => simp [Obj.set, fieldsSerialisable, hv]
  | cons e rest ih =>
    obtain ⟨k0, v0⟩ := e
    simp only [fieldsSerialisable, Bool.and_eq_true] at ho
    by_cases h0 : k0 = k
    · simp [Obj.set, h0, fieldsSerialisable, hv, ho.2]
    · simp [Obj.set, h0, fieldsSerialisable, ho.1, ih ho.2]

theorem fieldsSerialisable_spread (data target : Obj)
    (ht : fieldsSerialisable target = true) (hd : fieldsSerialisable data = true) :
    fieldsSerialisable (Obj.spread target data) = true := by
  induction data generalizing target with
  | nil => simpa [Obj.spread] using ht
  | cons e rest ih =>
    obtain ⟨k0, v0⟩ := e
    simp only [fieldsSerialisable, Bool.and_eq_true] at hd
    have := ih (Obj.set target k0 v0) (fieldsSerialisable_set target k0 v0 ht hd.1) hd.2
    simpa [Obj.spread] using this

theorem eventData_serialisable (h : Host) (event : String) (data : Obj)
    (hd : fieldsSerialisable data = true) :
    fieldsSerialisable (eventData h event data) = true := by
  apply fieldsSerialisable_spread _ _ _ hd
  simp [Obj.set, fieldsSerialisable, Value.serialisable]

theorem trackAll_events (calls : List TrackCall) (self : PostasyAnalytics) :
    (PostasyAnalytics.trackAll self calls).events =
      self.events ++ calls.map (fun c => eventData c.host c.event (c.data.getD [])) := by
  induction calls generalizing self with
  | nil => simp [PostasyAnalytics.trackAll]
  | cons c rest ih =>
    have := ih (PostasyAnalytics.track c.host self c.event c.data).1
    simp only [PostasyAnalytics.trackAll, List.foldl_cons] at this ⊢
    rw [this]
    simp [PostasyAnalytics.track]

theorem timestampOf_eventData (h : Host) (event : String) (data : Obj)
    (hk : "timestamp" ∉ Obj.keys data) :
    timestampOf (eventData h event data) = some h.now := by
  unfold timestampOf eventData
  rw [Obj.get_spread_of_not_mem _ _ _ hk]
  simp [Obj.get_set]

/-! ## The event recorder -/

/-- C1, as stated, fails: with the payload `{event: "spoofed"}` the record appended by
`track("page_view", payload)` carries the event name `"spoofed"`, not `"page_view"`, because
the payload is spread after the `event` property. -/
theorem track_payload_event_replaces_name :
    (PostasyAnalytics.track sampleHost (PostasyAnalytics.new 0) "page_view"
        (some [("event", .str "spoofed")])).1.events
      = [[("event", .str "spoofed"), ("timestamp", .num 5),
          ("url", .str "https://postasy.test/")]]
    ∧ Obj.get (eventData sampleHost "page_view" [("event", .str "spoofed")]) "event"
      ≠ some (.str "page_view") := by
  refine ⟨rfl, ?_⟩
  have h : Obj.get (eventData sampleHost "page_view" [("event", .str "spoofed")]) "event"
      = some (.str "spoofed") := rfl
  rw [h]
  intro hc
  injection hc with hc
  injection hc with hc
  exact absurd hc (by decide)

/-- C1, amended: `track(name, P)` appends exactly one record to the events log (the earlier
entries are unchanged), that record carries every key/value of `P`, and it carries `name` as
its event name whenever `P` has no `event` key. -/
theorem track_appends_one_record (h : Host) (self : PostasyAnalytics) (name : String)
    (P : Option Obj) (hP : (Obj.keys (P.getD [])).Nodup) :
    (PostasyAnalytics.track h self name P).1.events
      = self.events ++ [eventData h name (P.getD [])]
    ∧ (PostasyAnalytics.track h self name P).1.events.length = self.events.length + 1
    ∧ (∀ k v, (k, v) ∈ P.getD [] → Obj.get (eventData h name (P.getD [])) k = some v)
    ∧ ("event" ∉ Obj.keys (P.getD []) →
        Obj.get (eventData h name (P.getD [])) "event" = some (.str name)) := by
  refine ⟨rfl, by simp [PostasyAnalytics.track], ?_, ?_⟩
  · intro k v hkv
    exact Obj.get_spread_of_mem _ _ k v hP hkv
  · intro hk
    unfold eventData
    rw [Obj.get_spread_of_not_mem _ _ _ hk]
    simp [Obj.get_set]

/-- A witness of `track_appends_one_record`: a payload with the keys `url` and `title`. -/
theorem track_appends_one_record_witness :
    (PostasyAnalytics.track sampleHost (PostasyAnalytics.new 0) "page_view"
        (some [("url", .str "/home"), ("title", .str "Home")])).1.events
      = [] ++ [[("event", .str "page_view"), ("timestamp", .num 5), ("url", .str "/home"),
          ("title", .str "Home")]]
    ∧ Obj.get (eventData sampleHost "page_view" [("url", .str "/home"), ("title", .str "Home")])
        "event" = some (.str "page_view") :=
  have h := track_appends_one_record sampleHost (PostasyAnalytics.new 0) "page_view"
    (some [("url", .str "/home"), ("title", .str "Home")]) (by decide)
  ⟨h.1, h.2.2.2 (by decide)⟩

/-- C7, as stated, fails: the clock reads 100 and then 200, the second call carries the
payload `{timestamp: 0}`, and the log holds the timestamps 100 and 0 in that order. -/
theorem trackAll_payload_timestamp_breaks_order :
    [(100 : Int), 200].Pairwise (· ≤ ·)
    ∧ (PostasyAnalytics.trackAll (PostasyAnalytics.new 0)
        [ { host := { sampleHost with now := 100 }, event := "click", data := none },
          { host := { sampleHost with now := 200 }, event := "click",
            data := some [("timestamp", .num 0)] } ]).events.map timestampOf
      = [some 100, some 0]
    ∧ ¬ (PostasyAnalytics.trackAll (PostasyAnalytics.new 0)
        [ { host := { sampleHost with now := 100 }, event := "click", data := none },
          { host := { sampleHost with now := 200 }, event := "click",
            data := some [("timestamp", .num 0)] } ]).events.Pairwise timestampLE := by
  refine ⟨by decide, rfl, ?_⟩
  intro hp
  have h2 : timestampLE
      (eventData { sampleHost with now := 100 } "click" [])
      (eventData { sampleHost with now := 200 } "click" [("timestamp", .num 0)]) :=
    List.rel_of_pairwise_cons hp (List.mem_singleton.mpr rfl)
  have e1 : timestampOf (eventData { sampleHost with now := 100 } "click" []) = some 100 := rfl
  have e2 : timestampOf (eventData { sampleHost with now := 200 } "click"
      [("timestamp", .num 0)]) = some 0 := rfl
  unfold timestampLE at h2
  rw [e1, e2] at h2
  exact absurd h2 (by decide)

/-- C7, amended: after any sequence of `track` calls on a fresh instance, made while the
clock is non-decreasing and with payloads that have no `timestamp` key, the timestamps of the
records are the clock readings of the calls and are non-decreasing in log order. -/
theorem trackAll_timestamps_nondecreasing (start : Int) (calls : List TrackCall)
    (hclock : (calls.map fun c => c.host.now).Pairwise (· ≤ ·))
    (hkeys : ∀ c ∈ calls, "timestamp" ∉ Obj.keys (c.data.getD [])) :
    (PostasyAnalytics.trackAll (PostasyAnalytics.new start) calls).events.map timestampOf
      = calls.map (fun c => some c.host.now)
    ∧ (PostasyAnalytics.trackAll (PostasyAnalytics.new start) calls).events.Pairwise
        timestampLE := by
  rw [trackAll_events]
  simp only [PostasyAnalytics.new, List.nil_append, List.map_map]
  constructor
  · apply List.map_congr_left
    intro c hc
    exact timestampOf_eventData _ _ _ (hkeys c hc)
  · rw [List.pairwise_map] at hclock ⊢
    refine hclock.imp_of_mem ?_
    intro c d hc hd hle
    unfold timestampLE
    rw [timestampOf_eventData _ _ _ (hkeys c hc), timestampOf_eventData _ _ _ (hkeys d hd)]
    exact hle

/-- A witness of `trackAll_timestamps_nondecreasing`: two calls at the clock readings 100 and
200. -/
theorem trackAll_timestamps_nondecreasing_witness :
    (PostasyAnalytics.trackAll (PostasyAnalytics.new 0)
        [ { host := { sampleHost with now := 100 }, event := "page_view", data := none },
          { host := { sampleHost with now := 200 }, event := "click",
            data := some [("action", .str "click")] } ]).events.map timestampOf
      = [some 100, some 200] :=
  (trackAll_timestamps_nondecreasing 0
    [ { host := { sampleHost with now := 100 }, event := "page_view", data := none },
      { host := { sampleHost with now := 200 }, event := "click",
        data := some [("action", .str "click")] } ]
    (by decide) (by decide)).1

/-- C8: the call `analytics.track('long_task', {duration: 51n})` does not return normally.
The record is appended, then `JSON.stringify` throws a `TypeError` on the BigInt inside
`sendEvent`, as an argument of `fetch` when `navigator.sendBeacon` is missing and as an
argument of `sendBeacon` when it is present, outside the reach of `.catch(() => {})`. -/
theorem track_throws_on_unserialisable_payload :
    (PostasyAnalytics.track { sampleHost with sendBeacon := none } (PostasyAnalytics.new 0)
        "long_task" (some [("duration", .bigint 51)])).2
      = .error (.typeError "Do not know how to serialize a BigInt")
    ∧ returnsNormally (PostasyAnalytics.track { sampleHost with sendBeacon := none }
        (PostasyAnalytics.new 0) "long_task" (some [("duration", .bigint 51)])).2 = false
    ∧ returnsNormally (PostasyAnalytics.track sampleHost (PostasyAnalytics.new 0) "long_task"
        (some [("duration", .bigint 51)])).2 = false
    ∧ (PostasyAnalytics.track { sampleHost with sendBeacon := none } (PostasyAnalytics.new 0)
        "long_task" (some [("duration", .bigint 51)])).1.events.length = 1 := by
  refine ⟨rfl, rfl, rfl, rfl⟩

/-- The transport itself can throw into `track`, on a serialisable payload: a `ReferenceError`
when neither `navigator.sendBeacon` nor `fetch` exists, and whatever a call of `sendBeacon`
throws. -/
theorem track_throws_on_transport_error :
    (PostasyAnalytics.track { sampleHost with sendBeacon := none, fetch := none }
        (PostasyAnalytics.new 0) "session_end" (some [("duration", .num 1200)])).2
      = .error (.referenceError "fetch is not defined")
    ∧ (PostasyAnalytics.track
        { sampleHost with sendBeacon := some (.throws (.typeError "Invalid URL")) }
        (PostasyAnalytics.new 0) "session_end" (some [("duration", .num 1200)])).2
      = .error (.typeError "Invalid URL") := by
  refine ⟨rfl, rfl⟩

/-- What does hold of the recorder: the record is always appended to the log, and when the
payload is serialisable and the transport does not throw, `sendEvent` and `track` return
normally, whether the beacon was queued or refused and whether the `fetch` promise resolved
or rejected. -/
theorem track_returns_normally (h : Host) (self : PostasyAnalytics) (name : String)
    (P : Option Obj) :
    (PostasyAnalytics.track h self name P).1.events
      = self.events ++ [eventData h name (P.getD [])]
    ∧ (fieldsSerialisable (P.getD []) = true → h.transportThrows = false →
        returnsNormally (PostasyAnalytics.sendEvent h (eventData h name (P.getD []))) = true
        ∧ returnsNormally (PostasyAnalytics.track h self name P).2 = true) := by
  refine ⟨rfl, ?_⟩
  intro hser hthrow
  have hs := eventData_serialisable h name (P.getD []) hser
  have : returnsNormally (PostasyAnalytics.sendEvent h (eventData h name (P.getD []))) = true := by
    unfold PostasyAnalytics.sendEvent jsonStringify
    unfold Host.transportThrows at hthrow
    cases hb : h.sendBeacon with
    | some call =>
      cases call with
      | returns queued => simp [hs, returnsNormally]
      | throws e => rw [hb] at hthrow; exact absurd hthrow (by simp)
    | none =>
      rw [hb] at hthrow
      cases hf : h.fetch with
      | none => rw [hf] at hthrow; exact absurd hthrow (by simp)
      | some outcome => simp [hs, returnsNormally]
  exact ⟨this, this⟩

/-- An instance of `track_returns_normally`: no beacon, and the `fetch` promise rejects. -/
theorem track_returns_normally_on_rejection :
    returnsNormally (PostasyAnalytics.track
        { sampleHost with sendBeacon := none, fetch := some .rejects }
        (PostasyAnalytics.new 0) "session_end" (some [("duration", .num 1200)])).2 = true :=
  ((track_returns_normally { sampleHost with sendBeacon := none, fetch := some .rejects }
    (PostasyAnalytics.new 0) "session_end" (some [("duration", .num 1200)])).2 rfl rfl).2

/-! ## Properties of `Array.prototype.sort` as modelled -/

theorem perm_insertSorted {α : Type} (cmp : α → α → Int) (a : α) (l : List α) :
    (insertSorted cmp a l).Perm (a :: l) := by
  induction l with
  | nil => exact List.Perm.refl _
  | cons b rest ih =>
    unfold insertSorted
    split
    · exact List.Perm.refl _
    · exact (List.Perm.cons b ih).trans (List.Perm.swap a b rest)

theorem perm_arraySort {α : Type} (cmp : α → α → Int) (l : List α) :
    (arraySort cmp l).Perm l := by
  induction l with
  | nil => exact List.Perm.refl _
  | cons a rest ih =>
    exact (perm_insertSorted cmp a (arraySort cmp rest)).trans (List.Perm.cons a ih)

theorem ConsistentComparator.refl {α : Type} {cmp : α → α → Int}
    (hc : ConsistentComparator cmp) (a : α) : cmp a a = 0 := by
  have h1 := hc.1 a a
  omega

theorem ConsistentComparator.consistentOn {α : Type} {cmp : α → α → Int}
    (hc : ConsistentComparator cmp) (l : List α) : ConsistentOn cmp l :=
  ⟨fun a _ b _ => hc.1 a b, fun a _ b _ c _ => hc.2 a b c⟩

theorem ConsistentOn.mono {α : Type} {cmp : α → α → Int} {l l' : List α}
    (hc : ConsistentOn cmp l) (hsub : ∀ x ∈ l', x ∈ l) : ConsistentOn cmp l' :=
  ⟨fun a ha b hb => hc.1 a (hsub a ha) b (hsub b hb),
    fun a ha b hb c hc' => hc.2 a (hsub a ha) b (hsub b hb) c (hsub c hc')⟩

theorem ConsistentOn.total {α : Type} {cmp : α → α → Int} {l : List α}
    (hc : ConsistentOn cmp l) (a b : α) (ha : a ∈ l) (hb : b ∈ l) (h : ¬ cmp a b ≤ 0) :
    cmp b a ≤ 0 := by
  have := (hc.1 a ha b hb).mp (by omega)
  omega

/-- On a consistent comparator, comparing equal is symmetric and transitive. -/
theorem ConsistentOn.eq_zero_trans {α : Type} {cmp : α → α → Int} {l : List α}
    (hc : ConsistentOn cmp l) (a x b : α) (ha : a ∈ l) (hx : x ∈ l) (hb : b ∈ l)
    (hax : cmp a x = 0) (hab : cmp a b = 0) : cmp x b = 0 := by
  have h1 := hc.1 a ha x hx
  have h2 := hc.1 x hx a ha
  have h3 := hc.1 a ha b hb
  have h4 := hc.1 b hb a ha
  have hxa : cmp x a ≤ 0 := by omega
  have hba : cmp b a ≤ 0 := by omega
  have h5 := hc.2 x hx a ha b hb hxa (by omega)
  have h6 := hc.2 b hb a ha x hx hba (by omega)
  have h7 := hc.1 b hb x hx
  omega

theorem pairwise_insertSorted {α : Type} {cmp : α → α → Int} (a : α) (l : List α)
    (hc : ConsistentOn cmp (a :: l)) (hl : l.Pairwise (fun x y => cmp x y ≤ 0)) :
    (insertSorted cmp a l).Pairwise (fun x y => cmp x y ≤ 0) := by
  induction l with
  | nil => simp [insertSorted]
  | cons b rest ih =>
    have hb := List.pairwise_cons.mp hl
    have ha : a ∈ a :: b :: rest := List.mem_cons_self _ _
    have hbm : b ∈ a :: b :: rest := List.mem_cons_of_mem _ (List.mem_cons_self _ _)
    unfold insertSorted
    split
    · rename_i hab
      refine List.pairwise_cons.mpr ⟨?_, hl⟩
      intro y hy
      rcases List.mem_cons.mp hy with h | h
      · rw [h]; exact hab
      · exact hc.2 a ha b hbm y (List.mem_cons_of_mem _ (List.mem_cons_of_mem _ h)) hab
          (hb.1 y h)
    · rename_i hab
      have hc' : ConsistentOn cmp (a :: rest) := hc.mono (by
        intro x hx
        rcases List.mem_cons.mp hx with h | h
        · rw [h]; exact ha
        · exact List.mem_cons_of_mem _ (List.mem_cons_of_mem _ h))
      refine List.pairwise_cons.mpr ⟨?_, ih hc' hb.2⟩
      intro y hy
      rcases List.mem_cons.mp ((perm_insertSorted cmp a rest).mem_iff.mp hy) with h | h
      · rw [h]; exact hc.total a b ha hbm hab
      · exact hb.1 y h

theorem pairwise_arraySort {α : Type} {cmp : α → α → Int} (l : List α)
    (hc : ConsistentOn cmp l) : (arraySort cmp l).Pairwise (fun x y => cmp x y ≤ 0) := by
  induction l with
  | nil => simp [arraySort]
  | cons a rest ih =>
    have hrest : ConsistentOn cmp rest := hc.mono (fun x hx => List.mem_cons_of_mem _ hx)
    have hins : ConsistentOn cmp (a :: arraySort cmp rest) := hc.mono (by
      intro x hx
      rcases List.mem_cons.mp hx with h | h
      · rw [h]; exact List.mem_cons_self _ _
      · exact List.mem_cons_of_mem _ ((perm_arraySort cmp rest).mem_iff.mp h))
    exact pairwise_insertSorted a _ hins (ih hrest)

theorem arraySort_of_pairwise {α : Type} (cmp : α → α → Int) (l : List α)
    (hl : l.Pairwise (fun x y => cmp x y ≤ 0)) : arraySort cmp l = l := by
  induction l with
  | nil => rfl
  | cons a rest ih =>
    have ha := List.pairwise_cons.mp hl
    unfold arraySort
    rw [ih ha.2]
    cases rest with
    | nil => rfl
    | cons b rest2 =>
      unfold insertSorted
      rw [if_pos (ha.1 b (List.mem_cons_self b rest2))]

/-- Insertion keeps the elements that compare equal to `e` in their order. -/
theorem filter_insertSorted {α : Type} {cmp : α → α → Int} (e a : α) (l : List α)
    (hc : ConsistentOn cmp (e :: a :: l)) :
    (insertSorted cmp a l).filter (fun x => decide (cmp e x = 0))
      = (a :: l).filter (fun x => decide (cmp e x = 0)) := by
  induction l with
  | nil => rfl
  | cons b rest ih =>
    have he : e ∈ e :: a :: b :: rest := List.mem_cons_self _ _
    have ha : a ∈ e :: a :: b :: rest := List.mem_cons_of_mem _ (List.mem_cons_self _ _)
    have hb : b ∈ e :: a :: b :: rest :=
      List.mem_cons_of_mem _ (List.mem_cons_of_mem _ (List.mem_cons_self _ _))
    unfold insertSorted
    split
    · rfl
    · rename_i hab
      have hc' : ConsistentOn cmp (e :: a :: rest) := hc.mono (by
        intro x hx
        rcases List.mem_cons.mp hx with h | h
        · rw [h]; exact he
        · rcases List.mem_cons.mp h with h | h
          · rw [h]; exact ha
          · exact List.mem_cons_of_mem _ (List.mem_cons_of_mem _ (List.mem_cons_of_mem _ h)))
      rw [List.filter_cons, ih hc']
      by_cases hea : cmp e a = 0
      · have heb : ¬ cmp e b = 0 := by
          intro heb
          have := hc.eq_zero_trans e a b he ha hb hea heb
          omega
        simp [List.filter_cons, hea, heb]
      · by_cases heb : cmp e b = 0 <;> simp [List.filter_cons, hea, heb]

theorem filter_arraySort {α : Type} {cmp : α → α → Int} (e : α) (l : List α)
    (hc : ConsistentOn cmp (e :: l)) :
    (arraySort cmp l).filter (fun x => decide (cmp e x = 0))
      = l.filter (fun x => decide (cmp e x = 0)) := by
  induction l with
  | nil => rfl
  | cons a rest ih =>
    have hrest : ConsistentOn cmp (e :: rest) := hc.mono (by
      intro x hx
      rcases List.mem_cons.mp hx with h | h
      · rw [h]; exact List.mem_cons_self _ _
      · exact List.mem_cons_of_mem _ (List.mem_cons_of_mem _ h))
    have hins : ConsistentOn cmp (e :: a :: arraySort cmp rest) := hc.mono (by
      intro x hx
      rcases List.mem_cons.mp hx with h | h
      · rw [h]; exact List.mem_cons_self _ _
      · rcases List.mem_cons.mp h with h | h
        · rw [h]; exact List.mem_cons_of_mem _ (List.mem_cons_self _ _)
        · exact List.mem_cons_of_mem _
            (List.mem_cons_of_mem _ ((perm_arraySort cmp rest).mem_iff.mp h)))
    unfold arraySort
    rw [filter_insertSorted e a _ hins, List.filter_cons, ih hrest, List.filter_cons]

/-- The reference sort gives what the language guarantees. -/
theorem sortsStably_arraySort {α : Type} :
    SortsStably (fun (cmp : α → α → Int) (l : List α) => arraySort cmp l) := by
  intro cmp l hc
  refine ⟨perm_arraySort cmp l, pairwise_arraySort l hc, ?_⟩
  intro a ha
  exact filter_arraySort a l (hc.mono (by
    intro x hx
    rcases List.mem_cons.mp hx with h | h
    · rw [h]; exact ha
    · exact h))

/-- A permutation that is in the order of a consistent comparator and keeps every class of
equal elements in its order is unique. -/
theorem eq_of_sorted_of_stable {α : Type} (cmp : α → α → Int) (L : List α)
    (hc : ConsistentOn cmp L) (S T : List α) (hS : ∀ x ∈ S, x ∈ L) (hperm : S.Perm T)
    (hsS : S.Pairwise (fun x y => cmp x y ≤ 0)) (hsT : T.Pairwise (fun x y => cmp x y ≤ 0))
    (hst : ∀ a ∈ L, S.filter (fun x => decide (cmp a x = 0))
      = T.filter (fun x => decide (cmp a x = 0))) : S = T := by
  induction S generalizing T with
  | nil => exact (hperm.symm.eq_nil).symm
  | cons s S' ih =>
    cases T with
    | nil => exact absurd hperm.eq_nil (by simp)
    | cons t T' =>
      have hsL : s ∈ L := hS s (List.mem_cons_self _ _)
      have htL : t ∈ L := hS t (hperm.mem_iff.mpr (List.mem_cons_self _ _))
      have hss : cmp s s = 0 := by
        have := hc.1 s hsL s hsL
        omega
      have h1 : cmp s t ≤ 0 := by
        rcases List.mem_cons.mp (hperm.mem_iff.mpr (List.mem_cons_self t T')) with h | h
        · rw [h]; omega
        · exact (List.pairwise_cons.mp hsS).1 t h
      have h2 : cmp t s ≤ 0 := by
        rcases List.mem_cons.mp (hperm.mem_iff.mp (List.mem_cons_self s S')) with h | h
        · rw [h] at hss ⊢; omega
        · exact (List.pairwise_cons.mp hsT).1 s h
      have h0 : cmp s t = 0 := by
        have := hc.1 s hsL t htL
        have := hc.1 t htL s hsL
        omega
      have hhead := hst s hsL
      rw [List.filter_cons, List.filter_cons, if_pos (decide_eq_true hss),
        if_pos (decide_eq_true h0)] at hhead
      have hst' : s = t := (List.cons.inj hhead).1
      subst hst'
      have htail : S' = T' := by
        refine ih T' (fun x hx => hS x (List.mem_cons_of_mem _ hx)) (List.Perm.cons_inv hperm)
          (List.pairwise_cons.mp hsS).2 (List.pairwise_cons.mp hsT).2 ?_
        intro a ha
        have h := hst a ha
        rw [List.filter_cons, List.filter_cons] at h
        split at h
        · exact (List.cons.inj h).2
        · exact h
      rw [htail]

/-- On a comparator consistent on the array, every sort with the guarantee of the language
returns what the reference sort returns. -/
theorem SortsStably.eq_arraySort {α : Type} {sort : (α → α → Int) → List α → List α}
    (hsort : SortsStably sort) (cmp : α → α → Int) (l : List α) (hc : ConsistentOn cmp l) :
    sort cmp l = arraySort cmp l := by
  obtain ⟨hperm, hsorted, hstable⟩ := hsort cmp l hc
  obtain ⟨hperm', hsorted', hstable'⟩ := sortsStably_arraySort cmp l hc
  refine eq_of_sorted_of_stable cmp l hc _ _ (fun x hx => hperm.mem_iff.mp hx)
    (hperm.trans hperm'.symm) hsorted hsorted' ?_
  intro a ha
  rw [hstable a ha, hstable' a ha]

theorem consistent_codePointCompare : ConsistentComparator codePointCompare := by
  constructor
  · intro a b
    unfold codePointCompare
    rcases lt_trichotomy a.data b.data with h | h | h
    · have := lt_asymm h; simp [h, this]
    · simp [h]
    · have := lt_asymm h; simp [h, this]
  · intro a b c h1 h2
    unfold codePointCompare at *
    have e1 : a.data ≤ b.data := by
      by_contra hn; have := not_le.mp hn; have := lt_asymm this; simp_all
    have e2 : b.data ≤ c.data := by
      by_contra hn; have := not_le.mp hn; have := lt_asymm this; simp_all
    have e3 := not_lt.mpr (le_trans e1 e2)
    split_ifs <;> simp_all

theorem sortCompare_oldest (localeCompare : String → String → Int) (a b : VisibleItem)
    (x y : Int) (ha : a.date = some x) (hb : b.date = some y) :
    sortCompare (compareItems localeCompare "oldest") a b = x - y := by
  simp [sortCompare, compareItems, dateDiff, ha, hb]

theorem sortCompare_title (localeCompare : String → String → Int) (a b : VisibleItem) :
    sortCompare (compareItems localeCompare "title") a b = localeCompare a.title b.title := by
  simp [sortCompare, compareItems]

theorem sortCompare_default (localeCompare : String → String → Int) (sortValue : String)
    (h1 : sortValue ≠ "oldest") (h2 : sortValue ≠ "title") (a b : VisibleItem)
    (x y : Int) (ha : a.date = some x) (hb : b.date = some y) :
    sortCompare (compareItems localeCompare sortValue) a b = y - x := by
  simp [sortCompare, compareItems, dateDiff, ha, hb, h1, h2]

theorem date_of_validDates (l : List VisibleItem) (hv : validDates l = true) (a : VisibleItem)
    (ha : a ∈ l) : ∃ x, a.date = some x := by
  have := List.all_eq_true.mp hv a ha
  exact Option.isSome_iff_exists.mp this

/-- The comparator of `performSearch` is consistent on an array whose dates are valid, and on
any array under the sort `title`. -/
theorem consistentOn_compareItems {localeCompare : String → String → Int}
    (hlc : ConsistentComparator localeCompare) (sortValue : String) (l : List VisibleItem)
    (hv : sortValue = "title" ∨ validDates l = true) :
    ConsistentOn (sortCompare (compareItems localeCompare sortValue)) l := by
  by_cases h2 : sortValue = "title"
  · subst h2
    refine ⟨fun a _ b _ => ?_, fun a _ b _ c _ => ?_⟩
    · rw [sortCompare_title, sortCompare_title]; exact hlc.1 _ _
    · rw [sortCompare_title, sortCompare_title, sortCompare_title]; exact hlc.2 _ _ _
  · have hv' : validDates l = true := hv.resolve_left h2
    by_cases h1 : sortValue = "oldest"
    · subst h1
      refine ⟨fun a ha b hb => ?_, fun a ha b hb c hc => ?_⟩
      · obtain ⟨x, hx⟩ := date_of_validDates l hv' a ha
        obtain ⟨y, hy⟩ := date_of_validDates l hv' b hb
        rw [sortCompare_oldest _ a b x y hx hy, sortCompare_oldest _ b a y x hy hx]
        omega
      · obtain ⟨x, hx⟩ := date_of_validDates l hv' a ha
        obtain ⟨y, hy⟩ := date_of_validDates l hv' b hb
        obtain ⟨z, hz⟩ := date_of_validDates l hv' c hc
        rw [sortCompare_oldest _ a b x y hx hy, sortCompare_oldest _ b c y z hy hz,
          sortCompare_oldest _ a c x z hx hz]
        omega
    · refine ⟨fun a ha b hb => ?_, fun a ha b hb c hc => ?_⟩
      · obtain ⟨x, hx⟩ := date_of_validDates l hv' a ha
        obtain ⟨y, hy⟩ := date_of_validDates l hv' b hb
        rw [sortCompare_default _ _ h1 h2 a b x y hx hy,
          sortCompare_default _ _ h1 h2 b a y x hy hx]
        omega
      · obtain ⟨x, hx⟩ := date_of_validDates l hv' a ha
        obtain ⟨y, hy⟩ := date_of_validDates l hv' b hb
        obtain ⟨z, hz⟩ := date_of_validDates l hv' c hc
        rw [sortCompare_default _ _ h1 h2 a b x y hx hy,
          sortCompare_default _ _ h1 h2 b c y z hy hz,
          sortCompare_default _ _ h1 h2 a c x z hx hz]
        omega

/-! ## Properties of `performSearch` -/

theorem showOrHide_node (t f : String) (i : PosterItem) : (showOrHide t f i).node = i.node := by
  unfold showOrHide; split <;> rfl

theorem showOrHide_dataTitle (t f : String) (i : PosterItem) :
    (showOrHide t f i).dataTitle = i.dataTitle := by
  unfold showOrHide; split <;> rfl

theorem showOrHide_dataPublic (t f : String) (i : PosterItem) :
    (showOrHide t f i).dataPublic = i.dataPublic := by
  unfold showOrHide; split <;> rfl

theorem showOrHide_date (t f : String) (i : PosterItem) : (showOrHide t f i).date = i.date := by
  unfold showOrHide; split <;> rfl

theorem showOrHide_title (t f : String) (i : PosterItem) :
    (showOrHide t f i).title = i.title := by
  unfold PosterItem.title; rw [showOrHide_dataTitle]

theorem showOrHide_display (t f : String) (i : PosterItem) :
    (showOrHide t f i).display = if itemMatches t f i then "block" else "none" := by
  unfold showOrHide; split <;> rfl

theorem matchesFilter_showOrHide (t f f' : String) (i : PosterItem) :
    matchesFilter f' (showOrHide t f i) = matchesFilter f' i := by
  unfold matchesFilter PosterItem.isPublic; rw [showOrHide_dataPublic]

theorem itemMatches_showOrHide (t f t' f' : String) (i : PosterItem) :
    itemMatches t' f' (showOrHide t f i) = itemMatches t' f' i := by
  unfold itemMatches; rw [showOrHide_title, matchesFilter_showOrHide]

theorem showOrHide_idem (t f : String) (i : PosterItem) :
    showOrHide t f (showOrHide t f i) = showOrHide t f i := by
  have h := itemMatches_showOrHide t f t f i
  unfold showOrHide at h ⊢
  split <;> simp_all

theorem display_block_iff (t f : String) (i : PosterItem) :
    (showOrHide t f i).display = "block" ↔ itemMatches t f i = true := by
  rw [showOrHide_display]; split <;> simp_all

theorem display_none_iff (t f : String) (i : PosterItem) :
    (showOrHide t f i).display = "none" ↔ itemMatches t f i = false := by
  rw [showOrHide_display]; split <;> simp_all

theorem mem_collectVisible (t f : String) (items : List PosterItem) (v : VisibleItem) :
    v ∈ collectVisible t f items ↔
      ∃ j ∈ items, itemMatches t f j = true ∧
        v = { element := showOrHide t f j, date := j.date, title := j.title } := by
  unfold collectVisible
  simp only [List.mem_map, List.mem_filter]
  constructor
  · rintro ⟨j, ⟨hj, hm⟩, rfl⟩; exact ⟨j, hj, hm, rfl⟩
  · rintro ⟨j, hj, hm, rfl⟩; exact ⟨j, ⟨hj, hm⟩, rfl⟩

theorem mem_visibleItemsWith
    (sort : (VisibleItem → VisibleItem → Int) → List VisibleItem → List VisibleItem)
    (localeCompare : String → String → Int) (p : Page)
    (hperm : (visibleItemsWith sort localeCompare p).Perm
      (collectVisible p.searchTerm p.filterValue p.items)) (v : VisibleItem) :
    v ∈ visibleItemsWith sort localeCompare p ↔
      v ∈ collectVisible p.searchTerm p.filterValue p.items :=
  hperm.mem_iff

theorem mem_visibleItems (localeCompare : String → String → Int) (p : Page) (v : VisibleItem) :
    v ∈ visibleItems localeCompare p ↔
      v ∈ collectVisible p.searchTerm p.filterValue p.items :=
  mem_visibleItemsWith arraySort localeCompare p (perm_arraySort _ _) v

theorem mem_foldl_appendChild (vs : List VisibleItem) (cs : List PosterItem) (x : PosterItem)
    (hx : x ∈ vs.foldl (fun cs v => appendChild cs v.element) cs) :
    x ∈ cs ∨ ∃ v ∈ vs, x = v.element := by
  induction vs generalizing cs with
  | nil => exact Or.inl hx
  | cons v rest ih =>
    rcases ih (appendChild cs v.element) hx with h | ⟨w, hw, hxw⟩
    · unfold appendChild at h
      rcases List.mem_append.mp h with h | h
      · exact Or.inl (List.mem_filter.mp h).1
      · exact Or.inr ⟨v, List.mem_cons_self _ _, List.mem_singleton.mp h⟩
    · exact Or.inr ⟨w, List.mem_cons_of_mem _ hw, hxw⟩

theorem mem_performSearchWith_items
    (sort : (VisibleItem → VisibleItem → Int) → List VisibleItem → List VisibleItem)
    (localeCompare : String → String → Int) (p : Page)
    (hperm : (visibleItemsWith sort localeCompare p).Perm
      (collectVisible p.searchTerm p.filterValue p.items))
    (i : PosterItem) (hi : i ∈ (performSearchWith sort localeCompare p).items) :
    ∃ j ∈ p.items, i = showOrHide p.searchTerm p.filterValue j := by
  have hmap : ∀ x ∈ p.items.map (showOrHide p.searchTerm p.filterValue),
      ∃ j ∈ p.items, x = showOrHide p.searchTerm p.filterValue j := by
    intro x hx
    obtain ⟨j, hj, rfl⟩ := List.mem_map.mp hx
    exact ⟨j, hj, rfl⟩
  unfold performSearchWith at hi
  simp only at hi
  split at hi
  · rcases mem_foldl_appendChild _ _ _ hi with h | ⟨v, hv, rfl⟩
    · exact hmap i h
    · obtain ⟨j, hj, _, rfl⟩ := (mem_collectVisible _ _ _ _).mp ((mem_visibleItemsWith sort localeCompare p hperm _).mp hv)
      exact ⟨j, hj, rfl⟩
  · exact hmap i hi

theorem mem_performSearch_items (localeCompare : String → String → Int) (p : Page)
    (i : PosterItem) (hi : i ∈ (performSearch localeCompare p).items) :
    ∃ j ∈ p.items, i = showOrHide p.searchTerm p.filterValue j :=
  mem_performSearchWith_items arraySort localeCompare p (perm_arraySort _ _) i hi

/-- What `performSearch` does decide on: an element of the page after the call is shown
exactly when its `data-title` contains the lower-cased search input, case-sensitively, and its
visibility matches the filter; otherwise it is hidden. -/
theorem performSearch_display (localeCompare : String → String → Int) (p : Page)
    (i : PosterItem) (hi : i ∈ (performSearch localeCompare p).items) :
    (i.display = "block" ↔
      (includes i.title p.searchTerm = true ∧ matchesFilter p.filterValue i = true))
    ∧ (i.display = "none" ↔
      ¬ (includes i.title p.searchTerm = true ∧ matchesFilter p.filterValue i = true)) := by
  obtain ⟨j, _, rfl⟩ := mem_performSearch_items localeCompare p i hi
  rw [display_block_iff, display_none_iff, showOrHide_title, matchesFilter_showOrHide]
  unfold itemMatches
  cases includes j.title p.searchTerm <;> cases matchesFilter p.filterValue j <;> simp

/-- C2: at the search input "Sale" with the filter `all`, the poster whose title is "Sale"
contains the search term case-insensitively and its visibility matches, yet `performSearch`
hides it: only the search input is lower-cased, the title is compared as it is. -/
theorem performSearch_hides_exact_title :
    containsIgnoreCase "Sale" "Sale" = true
    ∧ matchesFilter "all"
        { node := 1, dataTitle := some "Sale", dataPublic := some "true", date := some 2,
          display := "" } = true
    ∧ (performSearch codePointCompare (samplePage "Sale" "all" "newest")).items
      = [ { node := 1, dataTitle := some "Sale", dataPublic := some "true", date := some 2,
            display := "none" },
          { node := 2, dataTitle := some "Draft", dataPublic := some "false", date := some 1,
            display := "none" } ]
    ∧ visibleItems codePointCompare (samplePage "Sale" "all" "newest") = [] := by
  decide

/-- C3, as stated, fails: with the empty search term and the filter `public`, the private
poster is hidden. -/
theorem performSearch_empty_term_public_filter_hides :
    (samplePage "" "public" "newest").searchTerm = ""
    ∧ (performSearch codePointCompare (samplePage "" "public" "newest")).items
      = [ { node := 2, dataTitle := some "Draft", dataPublic := some "false", date := some 1,
            display := "none" },
          { node := 1, dataTitle := some "Sale", dataPublic := some "true", date := some 2,
            display := "block" } ] := by
  decide

theorem includes_empty (s : String) : includes s "" = true := by
  simp [includes]

/-- C3, amended: when the search term is the empty string, every item passes the search
test, so `performSearch` leaves visible exactly the items whose visibility matches the filter
and hides the others; with the filter `all` every item is left visible. -/
theorem performSearch_empty_term (localeCompare : String → String → Int) (p : Page)
    (hterm : p.searchTerm = "") :
    (∀ i ∈ (performSearch localeCompare p).items,
      (i.display = "block" ↔ matchesFilter p.filterValue i = true)
      ∧ (i.display = "none" ↔ matchesFilter p.filterValue i = false))
    ∧ (p.filterValue = "all" → ∀ i ∈ (performSearch localeCompare p).items,
        i.display = "block")
    ∧ (∀ j ∈ p.items, itemMatches p.searchTerm p.filterValue j
        = matchesFilter p.filterValue j) := by
  have hall : ∀ i ∈ (performSearch localeCompare p).items,
      (i.display = "block" ↔ matchesFilter p.filterValue i = true)
      ∧ (i.display = "none" ↔ matchesFilter p.filterValue i = false) := by
    intro i hi
    have h := performSearch_display localeCompare p i hi
    rw [hterm] at h
    simp only [includes_empty, true_and] at h
    exact ⟨h.1, by rw [h.2]; simp⟩
  refine ⟨hall, ?_, ?_⟩
  · intro hf i hi
    rw [(hall i hi).1, hf]
    simp [matchesFilter]
  · intro j _
    simp [itemMatches, hterm, includes_empty]

/-- A witness of `performSearch_empty_term`: the empty search term with the filter `all`. -/
theorem performSearch_empty_term_witness :
    (samplePage "" "all" "newest").searchTerm = ""
    ∧ (samplePage "" "all" "newest").filterValue = "all"
    ∧ (∀ i ∈ (performSearch codePointCompare (samplePage "" "all" "newest")).items,
        i.display = "block") :=
  ⟨by decide, by decide,
    (performSearch_empty_term codePointCompare (samplePage "" "all" "newest") (by decide)).2.1
      (by decide)⟩

/-- C10: when the visibility filter is `public`, every item whose `data-public` is not
`"true"` is hidden by `performSearch`, whatever the search term, and no such item is among the
visible items. -/
theorem performSearch_public_excludes_private (localeCompare : String → String → Int)
    (p : Page) (hfilter : p.filterSelect = some "public") :
    (∀ i ∈ (performSearch localeCompare p).items,
      i.dataPublic ≠ some "true" → i.display = "none")
    ∧ (∀ v ∈ visibleItems localeCompare p, v.element.dataPublic = some "true")
    ∧ (∀ i ∈ (performSearch localeCompare p).shown, i.dataPublic = some "true")
    ∧ (∀ j ∈ p.items, j.dataPublic ≠ some "true" →
        (showOrHide p.searchTerm p.filterValue j).display = "none") := by
  have hfv : p.filterValue = "public" := by
    simp [Page.filterValue, orDefault, hfilter]
  have hmf : ∀ j : PosterItem, j.dataPublic ≠ some "true" →
      itemMatches p.searchTerm p.filterValue j = false := by
    intro j hj
    simp [itemMatches, matchesFilter, hfv, PosterItem.isPublic, hj]
  have h1 : ∀ i ∈ (performSearch localeCompare p).items,
      i.dataPublic ≠ some "true" → i.display = "none" := by
    intro i hi hpriv
    obtain ⟨j, _, rfl⟩ := mem_performSearch_items localeCompare p i hi
    rw [showOrHide_dataPublic] at hpriv
    exact (display_none_iff _ _ _).mpr (hmf j hpriv)
  refine ⟨h1, ?_, ?_, ?_⟩
  · intro v hv
    obtain ⟨j, _, hm, rfl⟩ := (mem_collectVisible _ _ _ _).mp ((mem_visibleItems _ _ _).mp hv)
    by_contra hpriv
    rw [showOrHide_dataPublic] at hpriv
    rw [hmf j hpriv] at hm
    exact absurd hm (by decide)
  · intro i hi
    unfold Page.shown at hi
    obtain ⟨hmem, hd⟩ := List.mem_filter.mp hi
    by_contra hpriv
    have := h1 i hmem hpriv
    rw [this] at hd
    exact absurd hd (by decide)
  · intro j _ hpriv
    exact (display_none_iff _ _ _).mpr (hmf j hpriv)

/-- A witness of `performSearch_public_excludes_private`: the sample page under the filter
`public`. -/
theorem performSearch_public_excludes_private_witness :
    (samplePage "" "public" "newest").filterSelect = some "public"
    ∧ (∀ i ∈ (performSearch codePointCompare (samplePage "" "public" "newest")).items,
        i.dataPublic ≠ some "true" → i.display = "none") :=
  ⟨by decide,
    (performSearch_public_excludes_private codePointCompare (samplePage "" "public" "newest")
      (by decide)).1⟩

theorem foldl_appendChild_eq (vs : List PosterItem) (cs : List PosterItem)
    (hnodup : (vs.map fun v => v.node).Nodup) :
    vs.foldl appendChild cs
      = cs.filter (fun c => decide (c.node ∉ vs.map fun v => v.node)) ++ vs := by
  induction vs generalizing cs with
  | nil => simp
  | cons v rest ih =>
    rw [List.map_cons] at hnodup
    have hn := List.nodup_cons.mp hnodup
    rw [List.foldl_cons, ih _ hn.2]
    unfold appendChild
    have hv : v.node ∉ rest.map fun v => v.node := hn.1
    rw [List.filter_append, List.filter_filter]
    have : List.filter (fun c => decide (c.node ∉ rest.map fun v => v.node)) [v] = [v] := by
      rw [List.filter_cons, if_pos (decide_eq_true hv)]; rfl
    rw [this, List.append_assoc]
    congr 1
    apply List.filter_congr
    intro x _
    simp only [List.map_cons, List.mem_cons, not_or, Bool.decide_and, ne_eq]
    rw [Bool.and_comm]

theorem collectVisible_map_showOrHide (t f : String) (items : List PosterItem) :
    collectVisible t f (items.map (showOrHide t f)) = collectVisible t f items := by
  unfold collectVisible
  rw [List.filter_map, List.map_map]
  have : (itemMatches t f ∘ showOrHide t f) = itemMatches t f := by
    funext j; exact itemMatches_showOrHide t f t f j
  rw [this]
  apply List.map_congr_left
  intro j _
  simp [showOrHide_idem, showOrHide_date, showOrHide_title]

theorem map_element_collectVisible (t f : String) (items : List PosterItem) :
    (collectVisible t f items).map (fun v => v.element)
      = (items.filter (itemMatches t f)).map (showOrHide t f) := by
  unfold collectVisible
  rw [List.map_map]
  rfl

/-- The nodes of the visible items are the nodes of the matching items. -/
theorem node_mem_visibleItemsWith_iff
    (sort : (VisibleItem → VisibleItem → Int) → List VisibleItem → List VisibleItem)
    (localeCompare : String → String → Int) (p : Page)
    (hperm : (visibleItemsWith sort localeCompare p).Perm
      (collectVisible p.searchTerm p.filterValue p.items))
    (hnodes : (p.items.map fun i => i.node).Nodup) (j : PosterItem) (hj : j ∈ p.items) :
    j.node ∈ ((visibleItemsWith sort localeCompare p).map fun v => v.element).map (fun i => i.node)
      ↔ itemMatches p.searchTerm p.filterValue j = true := by
  simp only [List.mem_map, exists_exists_and_eq_and]
  constructor
  · rintro ⟨v, hv, hnode⟩
    obtain ⟨j', hj', hm, rfl⟩ :=
      (mem_collectVisible _ _ _ _).mp ((mem_visibleItemsWith sort localeCompare p hperm _).mp hv)
    rw [showOrHide_node] at hnode
    have : j' = j := List.inj_on_of_nodup_map hnodes hj' hj hnode
    rw [← this]; exact hm
  · intro hm
    refine ⟨{ element := showOrHide p.searchTerm p.filterValue j, date := j.date,
              title := j.title }, ?_, showOrHide_node _ _ _⟩
    exact (mem_visibleItemsWith sort localeCompare p hperm _).mpr ((mem_collectVisible _ _ _ _).mpr ⟨j, hj, hm, rfl⟩)

theorem node_mem_visibleItems_iff (localeCompare : String → String → Int) (p : Page)
    (hnodes : (p.items.map fun i => i.node).Nodup) (j : PosterItem) (hj : j ∈ p.items) :
    j.node ∈ ((visibleItems localeCompare p).map fun v => v.element).map (fun i => i.node)
      ↔ itemMatches p.searchTerm p.filterValue j = true :=
  node_mem_visibleItemsWith_iff arraySort localeCompare p (perm_arraySort _ _) hnodes j hj

theorem nodup_visibleWith_nodes
    (sort : (VisibleItem → VisibleItem → Int) → List VisibleItem → List VisibleItem)
    (localeCompare : String → String → Int) (p : Page)
    (hperm : (visibleItemsWith sort localeCompare p).Perm
      (collectVisible p.searchTerm p.filterValue p.items))
    (hnodes : (p.items.map fun i => i.node).Nodup) :
    (((visibleItemsWith sort localeCompare p).map fun v => v.element).map fun i => i.node).Nodup := by
  have hperm : (((visibleItemsWith sort localeCompare p).map fun v => v.element).map fun i => i.node).Perm
      (((collectVisible p.searchTerm p.filterValue p.items).map fun v => v.element).map
        fun i => i.node) :=
    (hperm.map _).map _
  rw [hperm.nodup_iff, map_element_collectVisible, List.map_map]
  have : ((fun i : PosterItem => i.node) ∘ showOrHide p.searchTerm p.filterValue)
      = fun i => i.node := by
    funext j; exact showOrHide_node _ _ j
  rw [this]
  exact (List.Sublist.map _ (List.filter_sublist _)).nodup hnodes

theorem nodup_visible_nodes (localeCompare : String → String → Int) (p : Page)
    (hnodes : (p.items.map fun i => i.node).Nodup) :
    (((visibleItems localeCompare p).map fun v => v.element).map fun i => i.node).Nodup :=
  nodup_visibleWith_nodes arraySort localeCompare p (perm_arraySort _ _) hnodes

/-- With `#posterGrid` present and distinct nodes, the page after `performSearch` lists the
hidden items in their former order, followed by the visible items in sorted order. -/
theorem performSearchWith_items_grid
    (sort : (VisibleItem → VisibleItem → Int) → List VisibleItem → List VisibleItem)
    (localeCompare : String → String → Int) (p : Page)
    (hperm : (visibleItemsWith sort localeCompare p).Perm
      (collectVisible p.searchTerm p.filterValue p.items))
    (hgrid : p.posterGrid = true) (hnodes : (p.items.map fun i => i.node).Nodup) :
    (performSearchWith sort localeCompare p).items
      = (p.items.filter fun j => !itemMatches p.searchTerm p.filterValue j).map
          (showOrHide p.searchTerm p.filterValue)
        ++ (visibleItemsWith sort localeCompare p).map fun v => v.element := by
  unfold performSearchWith
  simp only [hgrid, if_true]
  have hfold : ∀ (vs : List VisibleItem) (cs : List PosterItem),
      vs.foldl (fun cs v => appendChild cs v.element) cs
        = (vs.map fun v => v.element).foldl appendChild cs := by
    intro vs cs; rw [List.foldl_map]
  rw [hfold, foldl_appendChild_eq _ _ (nodup_visibleWith_nodes sort localeCompare p hperm hnodes)]
  congr 1
  rw [List.filter_map]
  congr 1
  apply List.filter_congr
  intro j hj
  simp only [Function.comp, showOrHide_node]
  have := node_mem_visibleItemsWith_iff sort localeCompare p hperm hnodes j hj
  by_cases hm : itemMatches p.searchTerm p.filterValue j = true
  · rw [hm, decide_eq_false (not_not.mpr (this.mpr hm))]; rfl
  · have hn : j.node ∉ ((visibleItemsWith sort localeCompare p).map fun v => v.element).map
        (fun v => v.node) := fun h => hm (this.mp h)
    rw [Bool.not_eq_true] at hm
    rw [hm, decide_eq_true hn]; rfl

theorem performSearch_items_grid (localeCompare : String → String → Int) (p : Page)
    (hgrid : p.posterGrid = true) (hnodes : (p.items.map fun i => i.node).Nodup) :
    (performSearch localeCompare p).items
      = (p.items.filter fun j => !itemMatches p.searchTerm p.filterValue j).map
          (showOrHide p.searchTerm p.filterValue)
        ++ (visibleItems localeCompare p).map fun v => v.element :=
  performSearchWith_items_grid arraySort localeCompare p (perm_arraySort _ _) hgrid hnodes

theorem performSearchWith_shown_grid
    (sort : (VisibleItem → VisibleItem → Int) → List VisibleItem → List VisibleItem)
    (localeCompare : String → String → Int) (p : Page)
    (hperm : (visibleItemsWith sort localeCompare p).Perm
      (collectVisible p.searchTerm p.filterValue p.items))
    (hgrid : p.posterGrid = true) (hnodes : (p.items.map fun i => i.node).Nodup) :
    (performSearchWith sort localeCompare p).shown
      = (visibleItemsWith sort localeCompare p).map fun v => v.element := by
  unfold Page.shown
  rw [performSearchWith_items_grid sort localeCompare p hperm hgrid hnodes, List.filter_append]
  have h1 : List.filter (fun i : PosterItem => decide (i.display = "block"))
      ((p.items.filter fun j => !itemMatches p.searchTerm p.filterValue j).map
        (showOrHide p.searchTerm p.filterValue)) = [] := by
    apply List.filter_eq_nil_iff.mpr
    intro x hx
    obtain ⟨j, hj, rfl⟩ := List.mem_map.mp hx
    have hm := (List.mem_filter.mp hj).2
    rw [showOrHide_display]
    cases hmj : itemMatches p.searchTerm p.filterValue j
    · simp
    · rw [hmj] at hm; exact absurd hm (by decide)
  have h2 : List.filter (fun i : PosterItem => decide (i.display = "block"))
      ((visibleItemsWith sort localeCompare p).map fun v => v.element)
      = (visibleItemsWith sort localeCompare p).map fun v => v.element := by
    apply List.filter_eq_self.mpr
    intro x hx
    obtain ⟨v, hv, rfl⟩ := List.mem_map.mp hx
    obtain ⟨j, _, hm, rfl⟩ := (mem_collectVisible _ _ _ _).mp ((mem_visibleItemsWith sort localeCompare p hperm _).mp hv)
    exact decide_eq_true ((display_block_iff _ _ _).mpr hm)
  rw [h1, h2, List.nil_append]

theorem performSearch_shown_grid (localeCompare : String → String → Int) (p : Page)
    (hgrid : p.posterGrid = true) (hnodes : (p.items.map fun i => i.node).Nodup) :
    (performSearch localeCompare p).shown
      = (visibleItems localeCompare p).map fun v => v.element :=
  performSearchWith_shown_grid arraySort localeCompare p (perm_arraySort _ _) hgrid hnodes

/-- On every engine whose sort has the guarantee of the language, `performSearch` is the
function modelled with the reference sort, when the matched items have valid dates or the
sort is `title`. -/
theorem performSearchWith_eq_performSearch
    (sort : (VisibleItem → VisibleItem → Int) → List VisibleItem → List VisibleItem)
    (hsort : SortsStably sort) (localeCompare : String → String → Int)
    (hlc : ConsistentComparator localeCompare) (p : Page)
    (hv : p.sortValue = "title"
      ∨ validDates (collectVisible p.searchTerm p.filterValue p.items) = true) :
    visibleItemsWith sort localeCompare p = visibleItems localeCompare p
    ∧ performSearchWith sort localeCompare p = performSearch localeCompare p := by
  have h : visibleItemsWith sort localeCompare p = visibleItemsWith arraySort localeCompare p :=
    hsort.eq_arraySort _ _ (consistentOn_compareItems hlc p.sortValue _ hv)
  refine ⟨h, ?_⟩
  unfold performSearch performSearchWith
  rw [h]

/-- C4: the array `visibleItems` after the sort is a permutation of the matched items; when
the dates of the matched items are valid it is in descending order of date for the sort
`newest` and in ascending order of date for `oldest`; it is in ascending order of title (in
the collation of `localeCompare`) for `title`; when `#posterGrid` exists this is also the
order in which the shown items stand in the document. For the items
`[{title: "B", date: 2}, {title: "A", date: 1}]`, `newest` yields `[B, A]`, `oldest` yields
`[A, B]` and `title` yields `[A, B]`. -/
theorem performSearch_sort_order (localeCompare : String → String → Int)
    (hlc : ConsistentComparator localeCompare) (p : Page) :
    (visibleItems localeCompare p).Perm (collectVisible p.searchTerm p.filterValue p.items)
    ∧ (p.sortValue = "newest" →
        validDates (collectVisible p.searchTerm p.filterValue p.items) = true →
        (visibleItems localeCompare p).Pairwise (fun a b => dateLE b.date a.date))
    ∧ (p.sortValue = "oldest" →
        validDates (collectVisible p.searchTerm p.filterValue p.items) = true →
        (visibleItems localeCompare p).Pairwise (fun a b => dateLE a.date b.date))
    ∧ (p.sortValue = "title" →
        (visibleItems localeCompare p).Pairwise (fun a b => localeCompare a.title b.title ≤ 0))
    ∧ (p.posterGrid = true → (p.items.map fun i => i.node).Nodup →
        (performSearch localeCompare p).shown
          = (visibleItems localeCompare p).map fun v => v.element)
    ∧ (localeCompare "A" "B" < 0 →
        (visibleItems localeCompare (sortExamplePage "newest")).map (fun v => v.title)
          = ["B", "A"]
        ∧ (visibleItems localeCompare (sortExamplePage "oldest")).map (fun v => v.title)
          = ["A", "B"]
        ∧ (visibleItems localeCompare (sortExamplePage "title")).map (fun v => v.title)
          = ["A", "B"]) := by
  have hs : ∀ hv : p.sortValue = "title"
        ∨ validDates (collectVisible p.searchTerm p.filterValue p.items) = true,
      (visibleItems localeCompare p).Pairwise
        (fun x y => sortCompare (compareItems localeCompare p.sortValue) x y ≤ 0) :=
    fun hv => pairwise_arraySort _ (consistentOn_compareItems hlc p.sortValue _ hv)
  have hmem : ∀ v ∈ visibleItems localeCompare p,
      v ∈ collectVisible p.searchTerm p.filterValue p.items :=
    fun v hv => (mem_visibleItems localeCompare p v).mp hv
  refine ⟨perm_arraySort _ _, ?_, ?_, ?_, ?_, ?_⟩
  · intro hsv hvalid
    refine (hs (Or.inr hvalid)).imp_of_mem ?_
    intro a b ha hb hab
    obtain ⟨x, hx⟩ := date_of_validDates _ hvalid a (hmem a ha)
    obtain ⟨y, hy⟩ := date_of_validDates _ hvalid b (hmem b hb)
    rw [hsv, sortCompare_default _ _ (by decide) (by decide) a b x y hx hy] at hab
    rw [hx, hy]
    show y ≤ x
    omega
  · intro hsv hvalid
    refine (hs (Or.inr hvalid)).imp_of_mem ?_
    intro a b ha hb hab
    obtain ⟨x, hx⟩ := date_of_validDates _ hvalid a (hmem a ha)
    obtain ⟨y, hy⟩ := date_of_validDates _ hvalid b (hmem b hb)
    rw [hsv, sortCompare_oldest _ a b x y hx hy] at hab
    rw [hx, hy]
    show x ≤ y
    omega
  · intro hsv
    refine (hs (Or.inl hsv)).imp ?_
    intro a b hab
    rw [hsv, sortCompare_title] at hab
    exact hab
  · exact performSearch_shown_grid localeCompare p
  · intro hAB
    have hBA : ¬ localeCompare "B" "A" ≤ 0 := by
      have := (hlc.1 "B" "A").mpr hAB
      omega
    refine ⟨rfl, rfl, ?_⟩
    have : visibleItems localeCompare (sortExamplePage "title")
        = insertSorted (sortCompare (compareItems localeCompare "title"))
            { element := { node := 1, dataTitle := some "B", dataPublic := some "true",
                           date := some 2, display := "block" },
              date := some 2, title := "B" }
            [{ element := { node := 2, dataTitle := some "A", dataPublic := some "true",
                            date := some 1, display := "block" },
               date := some 1, title := "A" }] := rfl
    rw [this]
    have hc : sortCompare (compareItems localeCompare "title")
        { element := { node := 1, dataTitle := some "B", dataPublic := some "true",
                       date := some 2, display := "block" }, date := some 2, title := "B" }
        { element := { node := 2, dataTitle := some "A", dataPublic := some "true",
                       date := some 1, display := "block" }, date := some 1, title := "A" }
        = localeCompare "B" "A" := rfl
    unfold insertSorted
    rw [hc, if_neg hBA]
    rfl

/-- A witness of `performSearch_sort_order`: code point order as the collation, on the page
of the example. -/
theorem performSearch_sort_order_witness :
    ConsistentComparator codePointCompare
    ∧ codePointCompare "A" "B" < 0
    ∧ (sortExamplePage "title").sortValue = "title"
    ∧ (visibleItems codePointCompare (sortExamplePage "title")).Pairwise
        (fun a b => codePointCompare a.title b.title ≤ 0)
    ∧ (visibleItems codePointCompare (sortExamplePage "title")).map (fun v => v.title)
        = ["A", "B"]
    ∧ (sortExamplePage "newest").sortValue = "newest"
    ∧ validDates (collectVisible (sortExamplePage "newest").searchTerm
        (sortExamplePage "newest").filterValue (sortExamplePage "newest").items) = true
    ∧ (visibleItems codePointCompare (sortExamplePage "newest")).Pairwise
        (fun a b => dateLE b.date a.date) :=
  have h := performSearch_sort_order codePointCompare consistent_codePointCompare
    (sortExamplePage "title")
  have h' := performSearch_sort_order codePointCompare consistent_codePointCompare
    (sortExamplePage "newest")
  ⟨consistent_codePointCompare, by decide, by decide, h.2.2.2.1 (by decide),
    (h.2.2.2.2.2 (by decide)).2.2, by decide, by decide, h'.2.1 (by decide) (by decide)⟩

/-- C9, as stated, fails when a matched item has a date that does not parse. On the page
`invalidDatePage` the posters of nodes 5 and 7 are both dated 2 and node 5 stands first; the
comparator returns NaN against the three invalid dates, it is not consistent, and under the
sort `newest` V8 leaves node 7 before node 5, in `visibleItems` and in the document. -/
theorem performSearch_invalid_date_reverses_tie :
    ((collectVisible invalidDatePage.searchTerm invalidDatePage.filterValue
        invalidDatePage.items).map fun v => (v.element.node, v.date))
      = [(1, none), (2, none), (3, some 1), (4, none), (5, some 2), (6, some 3), (7, some 2)]
    ∧ ((visibleItemsWith v8Sort codePointCompare invalidDatePage).map fun v => v.element.node)
      = [1, 2, 6, 7, 3, 4, 5]
    ∧ ((performSearchWith v8Sort codePointCompare invalidDatePage).shown.map fun i => i.node)
      = [1, 2, 6, 7, 3, 4, 5] := by
  decide

/-- On arrays whose comparator is consistent the model of V8 and the reference sort agree:
the page with ties, under the three sorts. -/
theorem v8Sort_agrees_on_tiePage :
    visibleItemsWith v8Sort codePointCompare (tiePage "newest")
      = visibleItems codePointCompare (tiePage "newest")
    ∧ visibleItemsWith v8Sort codePointCompare (tiePage "oldest")
      = visibleItems codePointCompare (tiePage "oldest")
    ∧ visibleItemsWith v8Sort codePointCompare (tiePage "title")
      = visibleItems codePointCompare (tiePage "title") := by
  decide

theorem element_date_of_mem_collectVisible (t f : String) (items : List PosterItem)
    (v : VisibleItem) (hv : v ∈ collectVisible t f items) :
    v.element.date = v.date ∧ v.element.title = v.title := by
  obtain ⟨j, _, _, rfl⟩ := (mem_collectVisible _ _ _ _).mp hv
  exact ⟨showOrHide_date _ _ _, showOrHide_title _ _ _⟩

/-- A stable sort keeps the order of the elements of a class whose members all compare
equal. -/
theorem SortsStably.filter_eq {α : Type} {sort : (α → α → Int) → List α → List α}
    (hsort : SortsStably sort) (cmp : α → α → Int) (l : List α) (hc : ConsistentOn cmp l)
    (P : α → Bool)
    (hP : ∀ a ∈ l, ∀ x ∈ l, P a = true → P x = true → cmp a x = 0) :
    (sort cmp l).filter P = l.filter P := by
  obtain ⟨hperm, _, hstable⟩ := hsort cmp l hc
  by_cases h : ∃ a ∈ l, P a = true
  · obtain ⟨a, ha, hPa⟩ := h
    have hand : ∀ x ∈ l, (P x && decide (cmp a x = 0)) = P x := by
      intro x hx
      cases hPx : P x
      · rfl
      · simp [hP a ha x hx hPa hPx]
    have h1 : (sort cmp l).filter P
        = ((sort cmp l).filter (fun x => decide (cmp a x = 0))).filter P := by
      rw [List.filter_filter]
      apply List.filter_congr
      intro x hx
      exact (hand x (hperm.mem_iff.mp hx)).symm
    have h2 : (l.filter (fun x => decide (cmp a x = 0))).filter P = l.filter P := by
      rw [List.filter_filter]
      apply List.filter_congr
      intro x hx
      exact hand x hx
    rw [h1, hstable a ha, h2]
  · have hnone : ∀ x ∈ l, ¬ P x = true := fun x hx hPx => h ⟨x, hx, hPx⟩
    rw [List.filter_eq_nil_iff.mpr (fun x hx => hnone x (hperm.mem_iff.mp hx)),
      List.filter_eq_nil_iff.mpr hnone]

/-- The same for the elements of the entries, when the class is read off the element. -/
theorem filter_map_element_eq (S V : List VisibleItem) (hperm : S.Perm V)
    (Pv : VisibleItem → Bool) (Pi : PosterItem → Bool)
    (hread : ∀ v ∈ V, Pi v.element = Pv v) (hfilter : S.filter Pv = V.filter Pv) :
    (S.map fun v => v.element).filter Pi = (V.map fun v => v.element).filter Pi := by
  rw [List.filter_map, List.filter_map]
  have hS : S.filter (Pi ∘ fun v => v.element) = S.filter Pv :=
    List.filter_congr (fun v hv => hread v (hperm.mem_iff.mp hv))
  have hV : V.filter (Pi ∘ fun v => v.element) = V.filter Pv :=
    List.filter_congr (fun v hv => hread v hv)
  rw [hS, hV, hfilter]

/-- C9, amended: on an engine whose `Array.prototype.sort` is stable as ECMAScript 2019
requires, and for matched items with valid dates, the matched items that share a date (sorts
`newest`, `oldest` and the default) stand after `performSearch` in the order in which they
stood in the item list before it, in `visibleItems` and, with `#posterGrid`, in the document;
so do the matched items that share a title under the sort `title`. -/
theorem performSearch_sort_stable
    (sort : (VisibleItem → VisibleItem → Int) → List VisibleItem → List VisibleItem)
    (hsort : SortsStably sort) (localeCompare : String → String → Int)
    (hlc : ConsistentComparator localeCompare) (p : Page) :
    (p.sortValue ≠ "title" →
      validDates (collectVisible p.searchTerm p.filterValue p.items) = true → ∀ d : Int,
        (visibleItemsWith sort localeCompare p).filter (fun v => decide (v.date = some d))
          = (collectVisible p.searchTerm p.filterValue p.items).filter
              (fun v => decide (v.date = some d)))
    ∧ (p.sortValue = "title" → ∀ t : String,
        (visibleItemsWith sort localeCompare p).filter (fun v => decide (v.title = t))
          = (collectVisible p.searchTerm p.filterValue p.items).filter
              (fun v => decide (v.title = t)))
    ∧ (p.posterGrid = true → (p.items.map fun i => i.node).Nodup → p.sortValue ≠ "title" →
      validDates (collectVisible p.searchTerm p.filterValue p.items) = true → ∀ d : Int,
        (performSearchWith sort localeCompare p).shown.filter
            (fun i => decide (i.date = some d))
          = ((p.items.filter (itemMatches p.searchTerm p.filterValue)).map
              (showOrHide p.searchTerm p.filterValue)).filter
                (fun i => decide (i.date = some d)))
    ∧ (p.posterGrid = true → (p.items.map fun i => i.node).Nodup → p.sortValue = "title" →
      ∀ t : String,
        (performSearchWith sort localeCompare p).shown.filter (fun i => decide (i.title = t))
          = ((p.items.filter (itemMatches p.searchTerm p.filterValue)).map
              (showOrHide p.searchTerm p.filterValue)).filter
                (fun i => decide (i.title = t))) := by
  have hcons : ∀ hv : p.sortValue = "title"
        ∨ validDates (collectVisible p.searchTerm p.filterValue p.items) = true,
      ConsistentOn (sortCompare (compareItems localeCompare p.sortValue))
        (collectVisible p.searchTerm p.filterValue p.items) :=
    fun hv => consistentOn_compareItems hlc p.sortValue _ hv
  have hperm : ∀ hv : p.sortValue = "title"
        ∨ validDates (collectVisible p.searchTerm p.filterValue p.items) = true,
      (visibleItemsWith sort localeCompare p).Perm
        (collectVisible p.searchTerm p.filterValue p.items) :=
    fun hv => (hsort _ _ (hcons hv)).1
  have hdate : p.sortValue ≠ "title" →
      validDates (collectVisible p.searchTerm p.filterValue p.items) = true → ∀ d : Int,
        (visibleItemsWith sort localeCompare p).filter (fun v => decide (v.date = some d))
          = (collectVisible p.searchTerm p.filterValue p.items).filter
              (fun v => decide (v.date = some d)) := by
    intro hsv hvalid d
    refine hsort.filter_eq _ _ (hcons (Or.inr hvalid)) _ ?_
    intro a _ x _ ha hx
    have ha' : a.date = some d := of_decide_eq_true ha
    have hx' : x.date = some d := of_decide_eq_true hx
    by_cases ho : p.sortValue = "oldest"
    · rw [ho, sortCompare_oldest _ a x d d ha' hx']; omega
    · rw [sortCompare_default _ _ ho hsv a x d d ha' hx']; omega
  have htitle : p.sortValue = "title" → ∀ t : String,
        (visibleItemsWith sort localeCompare p).filter (fun v => decide (v.title = t))
          = (collectVisible p.searchTerm p.filterValue p.items).filter
              (fun v => decide (v.title = t)) := by
    intro hsv t
    refine hsort.filter_eq _ _ (hcons (Or.inl hsv)) _ ?_
    intro a _ x _ ha hx
    have ha' : a.title = t := of_decide_eq_true ha
    have hx' : x.title = t := of_decide_eq_true hx
    rw [hsv, sortCompare_title, ha', hx']
    exact hlc.refl t
  refine ⟨hdate, htitle, ?_, ?_⟩
  · intro hgrid hnodes hsv hvalid d
    rw [performSearchWith_shown_grid sort localeCompare p (hperm (Or.inr hvalid)) hgrid hnodes,
      ← map_element_collectVisible]
    refine filter_map_element_eq _ _ (hperm (Or.inr hvalid)) _ _ ?_ (hdate hsv hvalid d)
    intro v hv
    rw [(element_date_of_mem_collectVisible _ _ _ v hv).1]
  · intro hgrid hnodes hsv t
    rw [performSearchWith_shown_grid sort localeCompare p (hperm (Or.inl hsv)) hgrid hnodes,
      ← map_element_collectVisible]
    refine filter_map_element_eq _ _ (hperm (Or.inl hsv)) _ _ ?_ (htitle hsv t)
    intro v hv
    rw [(element_date_of_mem_collectVisible _ _ _ v hv).2]

/-- A witness of `performSearch_sort_stable`: with the reference sort and under the sort
`oldest`, the two posters dated 3 of `tiePage` keep their order in the document, node 1
before node 2, behind the poster dated 1. -/
theorem performSearch_sort_stable_witness :
    SortsStably (fun (cmp : VisibleItem → VisibleItem → Int) l => arraySort cmp l)
    ∧ ConsistentComparator codePointCompare
    ∧ (tiePage "oldest").posterGrid = true
    ∧ ((tiePage "oldest").items.map fun i => i.node).Nodup
    ∧ (tiePage "oldest").sortValue ≠ "title"
    ∧ validDates (collectVisible (tiePage "oldest").searchTerm (tiePage "oldest").filterValue
        (tiePage "oldest").items) = true
    ∧ ((performSearchWith (fun cmp l => arraySort cmp l) codePointCompare
        (tiePage "oldest")).shown.map fun i => i.node) = [3, 1, 2]
    ∧ (performSearchWith (fun cmp l => arraySort cmp l) codePointCompare
        (tiePage "oldest")).shown.filter (fun i => decide (i.date = some 3))
      = (((tiePage "oldest").items.filter (itemMatches (tiePage "oldest").searchTerm
          (tiePage "oldest").filterValue)).map (showOrHide (tiePage "oldest").searchTerm
            (tiePage "oldest").filterValue)).filter (fun i => decide (i.date = some 3)) :=
  ⟨sortsStably_arraySort, consistent_codePointCompare, by decide, by decide, by decide,
    by decide, by decide,
    (performSearch_sort_stable (fun cmp l => arraySort cmp l) sortsStably_arraySort
      codePointCompare consistent_codePointCompare (tiePage "oldest")).2.2.1
      (by decide) (by decide) (by decide) (by decide) 3⟩

theorem collectVisible_append (t f : String) (xs ys : List PosterItem) :
    collectVisible t f (xs ++ ys) = collectVisible t f xs ++ collectVisible t f ys := by
  simp [collectVisible]

theorem collectVisible_hidden (t f : String) (items : List PosterItem) :
    collectVisible t f ((items.filter fun j => !itemMatches t f j).map (showOrHide t f))
      = [] := by
  unfold collectVisible
  rw [List.map_eq_nil_iff, List.filter_eq_nil_iff]
  intro x hx
  obtain ⟨j, hj, rfl⟩ := List.mem_map.mp hx
  have hm := (List.mem_filter.mp hj).2
  rw [itemMatches_showOrHide]
  cases hmj : itemMatches t f j
  · simp
  · rw [hmj] at hm; exact absurd hm (by decide)

theorem collectVisible_visible (localeCompare : String → String → Int) (p : Page) :
    collectVisible p.searchTerm p.filterValue
        ((visibleItems localeCompare p).map fun v => v.element)
      = visibleItems localeCompare p := by
  have hmem : ∀ v ∈ visibleItems localeCompare p, ∃ j,
      itemMatches p.searchTerm p.filterValue j = true ∧
      v = { element := showOrHide p.searchTerm p.filterValue j, date := j.date,
            title := j.title } := by
    intro v hv
    obtain ⟨j, _, hm, rfl⟩ := (mem_collectVisible _ _ _ _).mp ((mem_visibleItems _ _ _).mp hv)
    exact ⟨j, hm, rfl⟩
  generalize visibleItems localeCompare p = S at hmem
  unfold collectVisible
  have hfilter : List.filter (itemMatches p.searchTerm p.filterValue)
      (S.map fun v => v.element) = S.map fun v => v.element := by
    apply List.filter_eq_self.mpr
    intro x hx
    obtain ⟨v, hv, rfl⟩ := List.mem_map.mp hx
    obtain ⟨j, hm, rfl⟩ := hmem v hv
    rw [itemMatches_showOrHide]; exact hm
  rw [hfilter, List.map_map]
  conv_rhs => rw [← List.map_id S]
  apply List.map_congr_left
  intro v hv
  obtain ⟨j, _, rfl⟩ := hmem v hv
  simp [showOrHide_idem, showOrHide_date, showOrHide_title]

theorem filter_hidden_hidden (t f : String) (items : List PosterItem) :
    ((items.filter fun j => !itemMatches t f j).map (showOrHide t f)).filter
        (fun j => !itemMatches t f j)
      = (items.filter fun j => !itemMatches t f j).map (showOrHide t f) := by
  apply List.filter_eq_self.mpr
  intro x hx
  obtain ⟨j, hj, rfl⟩ := List.mem_map.mp hx
  rw [itemMatches_showOrHide]
  exact (List.mem_filter.mp hj).2

theorem filter_hidden_visible (localeCompare : String → String → Int) (p : Page) :
    ((visibleItems localeCompare p).map fun v => v.element).filter
        (fun j => !itemMatches p.searchTerm p.filterValue j) = [] := by
  apply List.filter_eq_nil_iff.mpr
  intro x hx
  obtain ⟨v, hv, rfl⟩ := List.mem_map.mp hx
  obtain ⟨j, _, hm, rfl⟩ := (mem_collectVisible _ _ _ _).mp ((mem_visibleItems _ _ _).mp hv)
  rw [itemMatches_showOrHide, hm]
  decide

theorem map_showOrHide_performSearch (localeCompare : String → String → Int) (p : Page) :
    (performSearch localeCompare p).items.map (showOrHide p.searchTerm p.filterValue)
      = (performSearch localeCompare p).items := by
  conv_rhs => rw [← List.map_id (performSearch localeCompare p).items]
  apply List.map_congr_left
  intro x hx
  obtain ⟨j, _, rfl⟩ := mem_performSearch_items localeCompare p x hx
  exact showOrHide_idem _ _ _

theorem nodup_nodes_performSearch (localeCompare : String → String → Int) (p : Page)
    (hgrid : p.posterGrid = true) (hnodes : (p.items.map fun i => i.node).Nodup) :
    ((performSearch localeCompare p).items.map fun i => i.node).Nodup := by
  rw [performSearch_items_grid localeCompare p hgrid hnodes]
  have hperm : ((visibleItems localeCompare p).map fun v => v.element).Perm
      ((p.items.filter (itemMatches p.searchTerm p.filterValue)).map
        (showOrHide p.searchTerm p.filterValue)) := by
    rw [← map_element_collectVisible]
    exact (perm_arraySort _ _).map _
  have hall : (((p.items.filter fun j => !itemMatches p.searchTerm p.filterValue j).map
        (showOrHide p.searchTerm p.filterValue)
      ++ (visibleItems localeCompare p).map fun v => v.element).map fun i => i.node).Perm
      (p.items.map fun i => i.node) := by
    have h1 := (List.Perm.append_left
      ((p.items.filter fun j => !itemMatches p.searchTerm p.filterValue j).map
        (showOrHide p.searchTerm p.filterValue)) hperm).map (fun i : PosterItem => i.node)
    refine h1.trans ?_
    rw [← List.map_append, List.map_map]
    have hfun : ((fun i : PosterItem => i.node) ∘ showOrHide p.searchTerm p.filterValue)
        = fun i => i.node := by
      funext j; exact showOrHide_node _ _ j
    rw [hfun]
    refine List.Perm.map _ ?_
    exact List.perm_append_comm.trans
      (List.filter_append_perm (itemMatches p.searchTerm p.filterValue) p.items)
  exact hall.nodup_iff.mpr hnodes

theorem visibleItems_performSearch (localeCompare : String → String → Int)
    (hlc : ConsistentComparator localeCompare) (p : Page)
    (hnodes : (p.items.map fun i => i.node).Nodup)
    (hdates : validDates (collectVisible p.searchTerm p.filterValue p.items) = true) :
    visibleItems localeCompare (performSearch localeCompare p) = visibleItems localeCompare p := by
  have hsorted : (visibleItems localeCompare p).Pairwise
      (fun x y => sortCompare (compareItems localeCompare p.sortValue) x y ≤ 0) :=
    pairwise_arraySort _ (consistentOn_compareItems hlc p.sortValue _ (Or.inr hdates))
  have hcollect : collectVisible p.searchTerm p.filterValue (performSearch localeCompare p).items
      = if p.posterGrid then visibleItems localeCompare p
        else collectVisible p.searchTerm p.filterValue p.items := by
    by_cases hgrid : p.posterGrid = true
    · rw [performSearch_items_grid localeCompare p hgrid hnodes, collectVisible_append,
        collectVisible_hidden, collectVisible_visible, List.nil_append, if_pos hgrid]
    · rw [if_neg hgrid]
      have : (performSearch localeCompare p).items
          = p.items.map (showOrHide p.searchTerm p.filterValue) := by
        simp [performSearch, performSearchWith, hgrid]
      rw [this, collectVisible_map_showOrHide]
  show arraySort (sortCompare (compareItems localeCompare p.sortValue))
    (collectVisible p.searchTerm p.filterValue (performSearch localeCompare p).items) = _
  rw [hcollect]
  split
  · exact arraySort_of_pairwise _ _ hsorted
  · rfl

/-- C5: filtering is idempotent. For a page whose items are distinct nodes, with valid dates
on the matched items and a consistent collation, running `performSearch` on the page left by
a first run, with the same search term, filter and sort order, leaves that page as it is: the
same visible items in the same order and the same hidden items. -/
theorem performSearch_idempotent (localeCompare : String → String → Int)
    (hlc : ConsistentComparator localeCompare) (p : Page)
    (hnodes : (p.items.map fun i => i.node).Nodup)
    (hdates : validDates (collectVisible p.searchTerm p.filterValue p.items) = true) :
    performSearch localeCompare (performSearch localeCompare p) = performSearch localeCompare p
    ∧ visibleItems localeCompare (performSearch localeCompare p) = visibleItems localeCompare p
    ∧ (performSearch localeCompare (performSearch localeCompare p)).shown
        = (performSearch localeCompare p).shown
    ∧ (performSearch localeCompare (performSearch localeCompare p)).hidden
        = (performSearch localeCompare p).hidden := by
  have hvis := visibleItems_performSearch localeCompare hlc p hnodes hdates
  have hitems : (performSearch localeCompare (performSearch localeCompare p)).items
      = (performSearch localeCompare p).items := by
    by_cases hgrid : p.posterGrid = true
    · have hgrid' : (performSearch localeCompare p).posterGrid = true := hgrid
      rw [performSearch_items_grid localeCompare _ hgrid'
        (nodup_nodes_performSearch localeCompare p hgrid hnodes), hvis]
      show (List.filter (fun j => !itemMatches p.searchTerm p.filterValue j)
          (performSearch localeCompare p).items).map (showOrHide p.searchTerm p.filterValue)
        ++ _ = _
      rw [performSearch_items_grid localeCompare p hgrid hnodes, List.filter_append,
        filter_hidden_hidden, filter_hidden_visible, List.append_nil, List.map_map]
      congr 1
      apply List.map_congr_left
      intro j _
      exact showOrHide_idem _ _ _
    · have hgrid' : ¬ (performSearch localeCompare p).posterGrid = true := hgrid
      have h1 : ∀ q : Page, ¬ q.posterGrid = true → (performSearch localeCompare q).items
          = q.items.map (showOrHide q.searchTerm q.filterValue) := by
        intro q hq; simp [performSearch, performSearchWith, hq]
      rw [h1 _ hgrid']
      exact map_showOrHide_performSearch localeCompare p
  have hempty : (performSearch localeCompare (performSearch localeCompare p)).emptyState
      = (performSearch localeCompare p).emptyState := by
    have hvis' : visibleItemsWith arraySort localeCompare (performSearch localeCompare p)
        = visibleItemsWith arraySort localeCompare p := hvis
    show Option.map _ (Option.map _ p.emptyState) = Option.map _ p.emptyState
    rw [hvis']
    cases p.emptyState <;> rfl
  have heq : performSearch localeCompare (performSearch localeCompare p)
      = performSearch localeCompare p := by
    have hform : ∀ q : Page, performSearch localeCompare q
        = { searchInput := q.searchInput, filterSelect := q.filterSelect,
            sortSelect := q.sortSelect, items := (performSearch localeCompare q).items,
            posterGrid := q.posterGrid,
            emptyState := (performSearch localeCompare q).emptyState } := fun _ => rfl
    rw [hform (performSearch localeCompare p), hitems, hempty]
  refine ⟨heq, hvis, ?_, ?_⟩
  · rw [heq]
  · rw [heq]

/-- A witness of `performSearch_idempotent`: the sample page, searched for "a" under the
filter `all` and the sort `title`. -/
theorem performSearch_idempotent_witness :
    ConsistentComparator codePointCompare
    ∧ ((samplePage "a" "all" "title").items.map fun i => i.node).Nodup
    ∧ validDates (collectVisible (samplePage "a" "all" "title").searchTerm
        (samplePage "a" "all" "title").filterValue (samplePage "a" "all" "title").items) = true
    ∧ performSearch codePointCompare (performSearch codePointCompare
        (samplePage "a" "all" "title"))
      = performSearch codePointCompare (samplePage "a" "all" "title") :=
  ⟨consistent_codePointCompare, by decide, by decide,
    (performSearch_idempotent codePointCompare consistent_codePointCompare
      (samplePage "a" "all" "title") (by decide) (by decide)).1⟩

/-! ## Properties of `Utils.debounce` -/

theorem advanceTo_of_quietAt {α : Type} (now : Nat) (s : Debounced α) (hq : quietAt now s) :
    advanceTo now s = s := by
  unfold advanceTo
  rcases hq with h | ⟨t, ht, _, hdue⟩
  · rw [h]; rfl
  · rw [ht]
    unfold runDue
    rw [if_neg (fun h => absurd h.1 (by omega))]
    rfl

theorem executedFunction_of_quietAt {α : Type} (wait now : Nat) (args : α) (s : Debounced α)
    (hq : quietAt now s) :
    (executedFunction wait now args (advanceTo now s)).executed = s.executed
    ∧ (executedFunction wait now args (advanceTo now s)).timers
        = [{ id := s.nextId, due := now + wait, args := args }]
    ∧ (executedFunction wait now args (advanceTo now s)).timeout = some s.nextId := by
  rw [advanceTo_of_quietAt now s hq]
  refine ⟨rfl, ?_, rfl⟩
  unfold executedFunction
  rcases hq with h | ⟨t, ht, hid, _⟩
  · simp [h, clearTimeout]
  · simp [ht, hid, clearTimeout]

theorem runCalls_pending {α : Type} (wait : Nat) (calls : List (Nat × α)) (c last : Nat × α)
    (s : Debounced α) (hq : quietAt c.1 s)
    (hwin : withinWindow wait (c :: calls) = true)
    (hlast : (c :: calls).getLast? = some last) :
    (runCalls wait s (c :: calls)).executed = s.executed
    ∧ ∃ id, (runCalls wait s (c :: calls)).timers
        = [{ id := id, due := last.1 + wait, args := last.2 }]
      ∧ (runCalls wait s (c :: calls)).timeout = some id := by
  induction calls generalizing c s with
  | nil =>
    have hc : c = last := by simpa using hlast
    subst hc
    obtain ⟨h1, h2, h3⟩ := executedFunction_of_quietAt wait c.1 c.2 s hq
    exact ⟨h1, s.nextId, h2, h3⟩
  | cons d rest ih =>
    obtain ⟨h1, h2, h3⟩ := executedFunction_of_quietAt wait c.1 c.2 s hq
    simp only [withinWindow, Bool.and_eq_true, decide_eq_true_eq] at hwin
    have hrel : c.1 ≤ d.1 ∧ d.1 < c.1 + wait := hwin.1
    have hwin' : withinWindow wait (d :: rest) = true := hwin.2
    have hq' : quietAt d.1 (executedFunction wait c.1 c.2 (advanceTo c.1 s)) :=
      Or.inr ⟨_, h2, h3, hrel.2⟩
    have hlast' : (d :: rest).getLast? = some last := by
      rw [← hlast, List.getLast?_cons_cons]
    obtain ⟨e1, id, e2, e3⟩ := ih d _ hq' hwin' hlast'
    have hstep : runCalls wait s (c :: d :: rest)
        = runCalls wait (executedFunction wait c.1 c.2 (advanceTo c.1 s)) (d :: rest) := rfl
    rw [hstep]
    exact ⟨e1.trans h1, id, e2, e3⟩

/-- C6: for every non-empty sequence of calls of the debounced function in which each call
arrives before the timer started by the previous call is due, `func` has not run while the
last timer is pending, and once the last call's timer has expired `func` has run exactly
once, with the arguments of the last call, and nothing is left pending. -/
theorem debounce_runs_once_with_last_args {α : Type} (wait firstId : Nat)
    (calls : List (Nat × α)) (last : Nat × α)
    (hlast : calls.getLast? = some last) (hwin : withinWindow wait calls = true) :
    (runCalls wait (Debounced.init α firstId) calls).executed = []
    ∧ (∀ T, T < last.1 + wait →
        (advanceTo T (runCalls wait (Debounced.init α firstId) calls)).executed = [])
    ∧ (∀ T, last.1 + wait ≤ T →
        (advanceTo T (runCalls wait (Debounced.init α firstId) calls)).executed
          = [(last.1 + wait, last.2)]
        ∧ (advanceTo T (runCalls wait (Debounced.init α firstId) calls)).timers = []) := by
  cases calls with
  | nil => simp at hlast
  | cons c rest =>
    obtain ⟨h1, id, h2, h3⟩ := runCalls_pending wait rest c last (Debounced.init α firstId)
      (Or.inl rfl) hwin hlast
    have h1' : (runCalls wait (Debounced.init α firstId) (c :: rest)).executed = [] := h1
    refine ⟨h1', ?_, ?_⟩
    · intro T hT
      rw [advanceTo_of_quietAt T _ (Or.inr ⟨_, h2, h3, hT⟩)]
      exact h1'
    · intro T hT
      unfold advanceTo
      rw [h2]
      unfold runDue
      rw [if_pos ⟨hT, by simp [h2]⟩]
      unfold runDue later
      simp [h1', h2, h3, clearTimeout]

/-- A witness of `debounce_runs_once_with_last_args`: three keystrokes at 0, 100 and 399 ms
with a wait of 300 ms; the search runs once, at 699 ms, with the last input. -/
theorem debounce_runs_once_with_last_args_witness :
    withinWindow 300 [(0, "s"), (100, "sa"), (399, "sal")] = true
    ∧ (advanceTo 1000 (runCalls 300 (Debounced.init String 1)
        [(0, "s"), (100, "sa"), (399, "sal")])).executed = [(699, "sal")] :=
  ⟨by decide,
    ((debounce_runs_once_with_last_args 300 1 [(0, "s"), (100, "sa"), (399, "sal")] (399, "sal")
      rfl (by decide)).2.2 1000 (by decide)).1⟩

/-! ## Properties of `addCharacterCounter` -/

theorem scalesDown_exactNineTenths : ScalesDown exactNineTenths := by
  constructor
  · intro q hq; unfold exactNineTenths; linarith
  · intro q hq; unfold exactNineTenths; linarith

theorem mem_classListAdd (classes : List String) (token x : String) :
    x ∈ classListAdd classes token ↔ x ∈ classes ∨ x = token := by
  unfold classListAdd
  split
  · constructor
    · exact Or.inl
    · rintro (h | rfl)
      · exact h
      · assumption
  · simp

theorem mem_classListRemove (classes tokens : List String) (x : String) :
    x ∈ classListRemove classes tokens ↔ x ∈ classes ∧ x ∉ tokens := by
  simp [classListRemove]

theorem lengthGt_timesPointNine {scale : ℚ → ℚ} (hscale : ScalesDown scale)
    (maxLength : JsNumber) (n : Nat) (h : lengthGt n maxLength = true) :
    lengthGt n (timesPointNine scale maxLength) = true := by
  cases maxLength with
  | nan => exact h
  | negInf => rfl
  | posInf => exact h
  | fin q =>
    simp only [lengthGt, timesPointNine, decide_eq_true_eq] at h ⊢
    have hn : (0 : ℚ) ≤ (n : ℚ) := Nat.cast_nonneg n
    rcases le_or_lt 0 q with hq | hq
    · exact lt_of_le_of_lt (hscale.1 q hq) h
    · exact lt_of_lt_of_le (hscale.2 q hq) hn

theorem updateCounter_eq {scale : ℚ → ℚ} (hscale : ScalesDown scale) (maxLength : JsNumber)
    (n : Nat) (counter : CharacterCounter) :
    updateCounter scale maxLength n counter =
      if lengthGt n (timesPointNine scale maxLength) then
        { classList := classListRemove (classListAdd counter.classList "text-warning")
            ["text-muted"],
          current := n }
      else
        { classList := classListRemove (classListAdd counter.classList "text-muted")
            ["text-warning", "text-danger"],
          current := n } := by
  unfold updateCounter
  by_cases h1 : lengthGt n (timesPointNine scale maxLength) = true
  · rw [if_pos h1, if_pos h1]
  · rw [if_neg h1, if_neg h1]
    have h2 : ¬ lengthGt n maxLength = true :=
      fun h => h1 (lengthGt_timesPointNine hscale maxLength n h)
    rw [if_neg h2]

theorem updateCounter_no_danger {scale : ℚ → ℚ} (hscale : ScalesDown scale)
    (maxLength : JsNumber) (n : Nat) (counter : CharacterCounter)
    (hc : "text-danger" ∉ counter.classList) :
    "text-danger" ∉ (updateCounter scale maxLength n counter).classList := by
  rw [updateCounter_eq hscale]
  split
  · intro h
    have := ((mem_classListAdd _ _ _).mp ((mem_classListRemove _ _ _).mp h).1)
    rcases this with h | h
    · exact hc h
    · exact absurd h (by decide)
  · intro h
    exact ((mem_classListRemove _ _ _).mp h).2 (by decide)

theorem updateAll_no_danger {scale : ℚ → ℚ} (hscale : ScalesDown scale)
    (maxLength : JsNumber) (lengths : List Nat) (counter : CharacterCounter)
    (hc : "text-danger" ∉ counter.classList) :
    "text-danger" ∉ (updateAll scale maxLength counter lengths).classList := by
  induction lengths generalizing counter with
  | nil => exact hc
  | cons n rest ih =>
    exact ih (updateCounter scale maxLength n counter)
      (updateCounter_no_danger hscale maxLength n counter hc)

/-- C11: in `updateCounter` the `text-danger` branch is never taken: for every `maxLength` and
every text length `n`, `n > maxLength` implies `n > maxLength * 0.9`, so the first branch
wins. After any calls of `updateCounter` on the counter made by `addCharacterCounter`, the last
one at length `n`, the counter has no class `text-danger`; it has `text-warning` and not
`text-muted` when `n > maxLength * 0.9`, and `text-muted` and not `text-warning` otherwise. -/
theorem updateCounter_danger_never_taken (scale : ℚ → ℚ) (hscale : ScalesDown scale)
    (maxLength : JsNumber) (lengths : List Nat) (n : Nat) :
    takesDangerBranch scale maxLength n = false
    ∧ (lengthGt n maxLength = true → lengthGt n (timesPointNine scale maxLength) = true)
    ∧ "text-danger" ∉ (updateAll scale maxLength newCounter (lengths ++ [n])).classList
    ∧ (lengthGt n (timesPointNine scale maxLength) = true →
        "text-warning" ∈ (updateAll scale maxLength newCounter (lengths ++ [n])).classList
        ∧ "text-muted" ∉ (updateAll scale maxLength newCounter (lengths ++ [n])).classList)
    ∧ (lengthGt n (timesPointNine scale maxLength) = false →
        "text-muted" ∈ (updateAll scale maxLength newCounter (lengths ++ [n])).classList
        ∧ "text-warning" ∉ (updateAll scale maxLength newCounter (lengths ++ [n])).classList)
    ∧ (updateAll scale maxLength newCounter (lengths ++ [n])).current = n := by
  have himp := lengthGt_timesPointNine hscale maxLength n
  have hlast : updateAll scale maxLength newCounter (lengths ++ [n])
      = updateCounter scale maxLength n (updateAll scale maxLength newCounter lengths) := by
    simp [updateAll, List.foldl_append]
  have hnew : "text-danger" ∉ newCounter.classList := by decide
  refine ⟨?_, himp, ?_, ?_, ?_, ?_⟩
  · unfold takesDangerBranch
    cases h : lengthGt n maxLength
    · simp
    · simp [himp h]
  · exact updateAll_no_danger hscale maxLength _ _ hnew
  · intro h
    rw [hlast, updateCounter_eq hscale, if_pos h]
    constructor
    · exact (mem_classListRemove _ _ _).mpr
        ⟨(mem_classListAdd _ _ _).mpr (Or.inr rfl), by decide⟩
    · intro hm
      exact ((mem_classListRemove _ _ _).mp hm).2 (by decide)
  · intro h
    rw [hlast, updateCounter_eq hscale, if_neg (by rw [h]; decide)]
    constructor
    · exact (mem_classListRemove _ _ _).mpr
        ⟨(mem_classListAdd _ _ _).mpr (Or.inr rfl), by decide⟩
    · intro hm
      exact ((mem_classListRemove _ _ _).mp hm).2 (by decide)
  · rw [hlast, updateCounter_eq hscale]
    split <;> rfl

/-- A witness of `updateCounter_danger_never_taken`: with `maxlength="100"` and the exact
product, a text of 150 characters, typed after one of 50, exceeds the limit and leaves the
counter in the warning state. -/
theorem updateCounter_danger_never_taken_witness :
    ScalesDown exactNineTenths
    ∧ lengthGt 150 (.fin 100) = true
    ∧ lengthGt 150 (timesPointNine exactNineTenths (.fin 100)) = true
    ∧ takesDangerBranch exactNineTenths (.fin 100) 150 = false
    ∧ "text-danger" ∉
        (updateAll exactNineTenths (.fin 100) newCounter ([0, 50] ++ [150])).classList
    ∧ "text-warning" ∈
        (updateAll exactNineTenths (.fin 100) newCounter ([0, 50] ++ [150])).classList :=
  have h := updateCounter_danger_never_taken exactNineTenths scalesDown_exactNineTenths
    (.fin 100) [0, 50] 150
  have hgt : lengthGt 150 (.fin 100) = true := by norm_num [lengthGt]
  ⟨scalesDown_exactNineTenths, hgt, h.2.1 hgt, h.1, h.2.2.1, (h.2.2.2.1 (h.2.1 hgt)).1⟩

end Postasy
